import Mathlib

/-!
# render.js: asset compilation and request resolution

A shallow embedding of `src/render.js` (`compile`, `minify`, `load` and the
request handler returned by `handleRequest`) together with theorems about
extension rewriting, extension hiding, the skip filter, minification policy
and the request/response contract.

JavaScript strings are modelled as `List Char`; MIME types, header values and
error messages, which the program only compares or forwards, are `String`.
Packages the program calls (babel, sass, postcss, html-minifier, csso, terser,
ejs, handlebars, mime, glob, fs, path) are fields of `Env`; a call that can
throw returns `Except Err`.
-/

set_option autoImplicit false

namespace Render

/-- A JavaScript string. -/
abbrev Str := List Char

/-- An exception value. -/
abbrev Err := String

/-! ## String primitives -/

/-- JavaScript `s.includes(pat)`: `pat` occurs in `s` as a contiguous substring. -/
def includes : Str → Str → Bool
  | [], pat => pat.isPrefixOf []
  | c :: t, pat => pat.isPrefixOf (c :: t) || includes t pat

/-- JavaScript `s.replace(pat, rep)` for a string pattern: the first occurrence of
`pat` in `s` is replaced by `rep` (no occurrence: `s` unchanged). -/
def replaceFirst (pat rep : Str) : Str → Str
  | [] => if pat.isPrefixOf [] then rep else []
  | c :: t => if pat.isPrefixOf (c :: t) then rep ++ (c :: t).drop pat.length
              else c :: replaceFirst pat rep t

/-- The marker `.js`. -/
def dotJs : Str := ['.', 'j', 's']
/-- The marker `.jsx`. -/
def dotJsx : Str := ['.', 'j', 's', 'x']
/-- The marker `.ejs`. -/
def dotEjs : Str := ['.', 'e', 'j', 's']
/-- The marker `.handlebars`. -/
def dotHandlebars : Str := ['.', 'h', 'a', 'n', 'd', 'l', 'e', 'b', 'a', 'r', 's']
/-- The marker `.sass`. -/
def dotSass : Str := ['.', 's', 'a', 's', 's']
/-- The marker `.scss`. -/
def dotScss : Str := ['.', 's', 'c', 's', 's']
/-- The marker `.css`. -/
def dotCss : Str := ['.', 'c', 's', 's']
/-- The marker `.html`. -/
def dotHtml : Str := ['.', 'h', 't', 'm', 'l']
/-- The text `css` tested before the style optimizer runs. -/
def cssWord : Str := ['c', 's', 's']
/-- The text `/index.html`. -/
def slashIndexHtml : Str := ['/', 'i', 'n', 'd', 'e', 'x', '.', 'h', 't', 'm', 'l']

/-! ## Values -/

/-- What the variable `content` can hold: the `Buffer` read from disk, a string,
or a compiled template (a function from bindings to rendered text). -/
inductive Content (V : Type) where
  | buffer (bytes : List Nat)
  | text (s : Str)
  | render (f : V → Except Err Str)

/-- The object returned by `compile`.  The static branch returns
`{file, type, content, path}`; its absent `toRender`, `orginally`, `isAsync`
read as `false`, `none`, `false`. -/
structure Page (V : Type) where
  toRender : Bool
  orginally : Option String
  file : Str
  type : String
  content : Content V
  isAsync : Bool
  path : Str

/-- A JavaScript number: `NaN`, an infinity, or a finite value.  Every finite double is
a rational, and the program never computes with the number, so the finite values are
taken from the rationals; negative zero is falsy like zero and shares its value. -/
inductive JsNumber where
  | nan
  | infinity (negative : Bool)
  | finite (value : Rat)
  deriving DecidableEq

/-- Truthiness of a number: everything but `NaN` and zero. -/
def JsNumber.truthy : JsNumber → Bool
  | .nan => false
  | .infinity _ => true
  | .finite q => q != 0

/-- Result of `terser.minify`: an object carrying either `error` or `code`. -/
inductive TerserResult where
  | error (e : Err)
  | code (c : Str)

/-- The packages and process state the program relies on. -/
structure Env (V : Type) where
  /-- `path.resolve`. -/
  resolve : Str → Str
  /-- `path.dirname`. -/
  dirname : Str → Str
  /-- `path.join` of two parts. -/
  join : Str → Str → Str
  /-- `glob.sync`. -/
  glob : Str → List Str
  /-- `fs.lstatSync(f).isDirectory()`. -/
  isDirectory : Str → Except Err Bool
  /-- `fs.readFileSync`. -/
  readFileSync : Str → Except Err (List Nat)
  /-- `String(buffer)`. -/
  decode : List Nat → Str
  /-- `environment == "production"` or `NODE_ENV == "production"`. -/
  production : Bool
  /-- `babel.transformSync(text, ..).code`, given text, filename, cwd and the `minify` option. -/
  babel : Str → Str → Str → Option Bool → Except Err Str
  /-- `ejs.compile(text, ..)`, given text, filename and root. -/
  ejsCompile : Str → Str → Str → Except Err (V → Except Err Str)
  /-- `handlebars.compile(text)`. -/
  handlebarsCompile : Str → Except Err (V → Except Err Str)
  /-- `sass.renderSync(..).css`, given data, include path and `indentedSyntax`. -/
  sass : Str → Str → Bool → Except Err Str
  /-- `optimizeCSS.process(text).css` (postcss with autoprefixer). -/
  optimizeCSS : Str → Except Err Str
  /-- `htmlMinifier(text, ..)`. -/
  htmlMinifier : Str → Except Err Str
  /-- `csso.minify(content).css`. -/
  csso : Content V → Except Err Str
  /-- `terser.minify(text)`. -/
  terser : Str → TerserResult
  /-- `mime.getType(name)`; `none` is `null`. -/
  mimeGetType : Str → Option String
  /-- Truthy property read `vars[key]` on a bindings object. -/
  varsGet : V → Str → Option V
  /-- The empty bindings object. -/
  varsEmpty : V

variable {V : Type}

/-- JavaScript `String(content)` for a buffer or a string. -/
def Content.toStr (E : Env V) : Content V → Str
  | .buffer b => E.decode b
  | .text s => s
  | .render _ => []

/-- Truthiness of an optional boolean option (`undefined` is falsy). -/
def truthy : Option Bool → Bool
  | some b => b
  | none => false

/-! ## minify (lines 209-223) -/

/-- The function `minify(content, type)`. -/
def minify (E : Env V) (content : Content V) (type : String) : Except Err (Content V) :=
  if type = "text/html" then
    (E.htmlMinifier (content.toStr E)).map Content.text
  else if type = "text/css" then
    (E.csso content).map Content.text
  else if type = "application/javascript" then
    match E.terser (content.toStr E) with
    | .error _ => .ok content
    | .code c => .ok (.text c)
  else .ok content

/-! ## compile (lines 140-202) -/

/-- Lines 142-146: the effective `options.minify`. -/
def resolveMinify (E : Env V) : Option Bool → Option Bool
  | some b => some b
  | none => if E.production then some true else none

/-- Lines 150-151: the root folder; an empty or absent root is falsy. -/
def resolveRoot (E : Env V) (absPath : Str) : Option Str → Str
  | some r => if r = [] then E.dirname absPath else E.resolve r
  | none => E.dirname absPath

/-- Line 152: the working name, the absolute path with the root removed. -/
def workingName (E : Env V) (path : Str) (root : Option Str) : Str :=
  replaceFirst (resolveRoot E (E.resolve path) root) [] (E.resolve path)

/-- Lines 160-161: the name after the script stage. -/
def scriptName (name : Str) : Str :=
  let n := replaceFirst dotJs [] (replaceFirst dotJsx [] name)
  if includes n dotJs then n else n ++ dotJs

/-- Lines 173 and 178: the marker is replaced by `.html` unless `.html` is present. -/
def templateName (name : Str) : Str :=
  if includes name dotEjs then
    replaceFirst dotEjs (if includes name dotHtml then [] else dotHtml) name
  else if includes name dotHandlebars then
    replaceFirst dotHandlebars (if includes name dotHtml then [] else dotHtml) name
  else name

/-- Line 189: both replacement texts are computed from the name before the rewrite. -/
def sassName (name : Str) : Str :=
  replaceFirst dotScss (if includes name dotCss then [] else dotCss)
    (replaceFirst dotSass (if includes name dotCss then [] else dotCss) name)

/-- Lines 165-184: the template stage, entered with the content as text. -/
def compileTemplate (E : Env V) (minifyOpt : Option Bool) (path root name : Str)
    (content : Content V) : Except Err (Page V) := do
  let text : Content V := .text (content.toStr E)
  let text ← if truthy minifyOpt then minify E text "text/html" else pure text
  if includes name dotEjs then
    let f ← E.ejsCompile (text.toStr E) path root
    pure { toRender := true, orginally := some "ejs", file := templateName name,
           type := "text/html", content := .render f, isAsync := true, path := path }
  else if includes name dotHandlebars then
    let f ← E.handlebarsCompile (text.toStr E)
    pure { toRender := true, orginally := some "handlebars", file := templateName name,
           type := "text/html", content := .render f, isAsync := false, path := path }
  else
    pure { toRender := true, orginally := none, file := name,
           type := "text/html", content := text, isAsync := false, path := path }

/-- Lines 186-201: SASS, style optimization, type resolution and the shared minifier. -/
def compileStatic (E : Env V) (minifyOpt : Option Bool) (path name : Str)
    (content : Content V) (type : Option String) : Except Err (Page V) := do
  let (name, content, type) ←
    if includes name dotSass || includes name dotScss then do
      let css ← E.sass (content.toStr E) (E.dirname path) (includes name dotSass)
      pure (sassName name, Content.text css, some "text/css")
    else pure (name, content, type)
  let content ←
    if truthy minifyOpt && includes name cssWord then
      (E.optimizeCSS (content.toStr E)).map Content.text
    else pure content
  let type : String :=
    match type with
    | some t => t
    | none =>
      match E.mimeGetType name with
      | some t => if t = "" then "text/plain" else t
      | none => "text/plain"
  let content ← if truthy minifyOpt then minify E content type else pure content
  pure { toRender := false, orginally := none, file := name, type := type,
         content := content, isAsync := false, path := path }

/-- The function `compile(path, root, {minify})`. -/
def compile (E : Env V) (path : Str) (root : Option Str) (minifyOpt : Option Bool) :
    Except Err (Page V) := do
  let minifyOpt := resolveMinify E minifyOpt
  let absPath := E.resolve path
  let root := resolveRoot E absPath root
  let name := replaceFirst root [] absPath
  let bytes ← E.readFileSync absPath
  let (name, content, type) ←
    if includes name dotJs then do
      let code ← E.babel (E.decode bytes) name root minifyOpt
      pure (scriptName name, Content.text code, some "application/javascript")
    else pure (name, Content.buffer bytes, (none : Option String))
  if includes name dotEjs || includes name dotHandlebars then
    compileTemplate E minifyOpt absPath root name content
  else
    compileStatic E minifyOpt absPath name content type

/-! ## load (lines 62-97) -/

/-- The first argument of `load`: an explicit file list or a folder. -/
inductive Source where
  | files (fs : List Str)
  | folder (dir : Str)

/-- The second argument of `load`. -/
structure LoadOptions (V : Type) where
  root : Option Str
  skip : Option (List Str)
  hideHTMLExtension : Option Bool
  minify : Option Bool
  vars : Option V
  displayErrors : Option Bool
  cache : Option JsNumber

/-- Lines 64-71: the files to visit. -/
def sourceFiles (E : Env V) : Source → List Str
  | .files fs => fs
  | .folder dir => E.glob (E.join dir "/**/*".toList)

/-- Lines 66 and 70: `options.root || ...`; `path.dirname(undefined)` throws. -/
def loadRoot (E : Env V) (src : Source) (root : Option Str) : Except Err Str :=
  match root with
  | some (c :: r) => .ok (c :: r)
  | _ =>
    match src with
    | .files [] => .error "TypeError: the path argument must be of type string"
    | .files (f :: _) => .ok (E.dirname f)
    | .folder dir => .ok dir

/-- Lines 79-83: whether the file is in a folder that should be skipped. -/
def skipped (E : Env V) (skip : Option (List Str)) (path : Str) : Bool :=
  match skip with
  | none => false
  | some frags => frags.any (fun frag => includes path (E.join "/".toList frag))

/-- Lines 90-92: the rewrite applied to `page.file` when extension hiding is on. -/
def hideExtension (file : Str) : Str :=
  let f :=
    if includes file slashIndexHtml then replaceFirst slashIndexHtml [] file
    else if includes file dotHtml then replaceFirst dotHtml [] file
    else file
  if f = [] then "/".toList else f

/-- Lines 89-93: `page.file` as stored, given `options.hideHTMLExtension`. -/
def storedFile (hide : Option Bool) (file : Str) : Str :=
  match hide with
  | none => hideExtension file
  | some true => hideExtension file
  | some false => file

/-- A value read from the object `pages`: a page, or some other truthy value
reached through the prototype chain (its `toRender`, `content`, `type` are
`undefined`). -/
inductive Slot (V : Type) where
  | page (p : Page V)
  | other

/-- The object `pages`: its own properties, newest first, and the page installed as
its prototype when one was assigned to the key `__proto__`. -/
structure Index (V : Type) where
  own : List (Str × Page V)
  proto : Option (Page V)

/-- The object literal `{}`. -/
def Index.empty : Index V := { own := [], proto := none }

/-- The key `__proto__`. -/
def protoKey : Str := "__proto__".toList

/-- Property names every object inherits from `Object.prototype`; all are truthy. -/
def objectPrototypeNames : List Str :=
  ["constructor".toList, "__defineGetter__".toList, "__defineSetter__".toList,
   "hasOwnProperty".toList, "__lookupGetter__".toList, "__lookupSetter__".toList,
   "isPrototypeOf".toList, "propertyIsEnumerable".toList, "toString".toList,
   "valueOf".toList, "toLocaleString".toList]

/-- Whether a page used as prototype supplies a truthy value under `key`. -/
def pageTruthyField (p : Page V) (key : Str) : Bool :=
  (key = "toRender".toList && p.toRender) ||
  (key = "orginally".toList && (match p.orginally with | some o => o != "" | none => false)) ||
  (key = "file".toList && p.file != []) ||
  (key = "type".toList && p.type != "") ||
  (key = "content".toList &&
    (match p.content with | .text s => s != [] | _ => true)) ||
  (key = "isAsync".toList && p.isAsync) ||
  (key = "path".toList && p.path != [])

/-- The assignment `pages[key] = page`. -/
def Index.set (ix : Index V) (key : Str) (p : Page V) : Index V :=
  if key = protoKey then { ix with proto := some p }
  else { ix with own := (key, p) :: ix.own }

/-- The read `pages[key]`, `none` when the value is `undefined` or falsy. -/
def Index.get (ix : Index V) (key : Str) : Option (Slot V) :=
  match ix.own.lookup key with
  | some p => some (.page p)
  | none =>
    if key = protoKey then
      match ix.proto with
      | some p => some (.page p)
      | none => some .other
    else if (match ix.proto with | some p => pageTruthyField p key | none => false) then
      some .other
    else if key ∈ objectPrototypeNames then some .other
    else none

/-- Lines 74-97: the loop over `files`. -/
def loadLoop (E : Env V) (opts : LoadOptions V) (root : Str) :
    List Str → Index V → Except Err (Index V)
  | [], ix => .ok ix
  | f :: fs, ix => do
    let dir ← E.isDirectory f
    if dir then loadLoop E opts root fs ix
    else if skipped E opts.skip f then loadLoop E opts root fs ix
    else
      let page ← compile E f (some root) opts.minify
      let page := { page with file := storedFile opts.hideHTMLExtension page.file }
      loadLoop E opts root fs (ix.set page.file page)

/-- The function `load(folder, options)`: the object `pages` it builds. -/
def load (E : Env V) (src : Source) (opts : LoadOptions V) : Except Err (Index V) := do
  let root ← loadRoot E src opts.root
  loadLoop E opts root (sourceFiles E src) Index.empty

/-! ## handleRequest (lines 100-128) -/

/-- The argument `thisOptions` of `handleRequest`. -/
structure HandlerOptions (V : Type) where
  vars : Option V
  displayErrors : Option Bool
  cache : Option JsNumber

/-- The object `req.params`: the named parameter `file` and the wildcard `params[0]`. -/
structure Params where
  file : Option Str
  rest : Option Str

/-- The fields of `req` that the handler reads. -/
structure Request where
  method : String
  params : Option Params
  path : Str

/-- The callback `thisOptions.getVars`, when supplied. -/
abbrev GetVars (V : Type) := Option (Page V → Request → Except Err V)

/-- A call made on `res` or `next`.  `set t n` stands for
`res.set({"Content-Type": t, "Cache-Control": "max-age=" + n})`. -/
inductive Action (V : Type) where
  | status (code : Nat)
  | set (contentType : Option String) (maxAge : JsNumber)
  | send (body : Option (Content V))
  | next (err : Option Err)

/-- Line 106: the methods that are served. -/
def methodAllowed (method : String) : Bool :=
  method = "GET" || method = "OPTIONS" || method = "HEAD"

/-- Lines 107 and 113: `thisOptions.displayErrors || options.displayErrors`. -/
def showErrors (opts : LoadOptions V) (th : HandlerOptions V) : Bool :=
  truthy th.displayErrors || truthy opts.displayErrors

/-- Lines 107-108 and 113-114: the answer to a rejected method or a miss. -/
def notFound (opts : LoadOptions V) (th : HandlerOptions V) : List (Action V) :=
  if showErrors opts th then [.status 404, .send (some (.text "404 - No such page".toList))]
  else [.next none]

/-- String concatenation with a possibly `undefined` operand. -/
def orUndefined : Option Str → Str
  | some s => s
  | none => "undefined".toList

/-- Line 111: the key looked up in `pages`. -/
def lookupKey (ps : Params) (path : Str) : Str :=
  match ps.file with
  | some (c :: f) => "/".toList ++ (c :: f) ++ orUndefined ps.rest
  | _ => path

/-- The expression `a || b` on two optional numbers: `a` when it is truthy
(`undefined`, `NaN` and zero are not), else `b`. -/
def orNumber (a b : Option JsNumber) : Option JsNumber :=
  match a with
  | some n => if n.truthy then some n else b
  | none => b

/-- Line 125: `thisOptions.cache || options.cache || 3600`. -/
def maxAge (opts : LoadOptions V) (th : HandlerOptions V) : JsNumber :=
  match orNumber th.cache opts.cache with
  | some n => if n.truthy then n else .finite 3600
  | none => .finite 3600

/-- Lines 101-102: the bindings chosen when the handler is created. -/
def baseVars (E : Env V) (opts : LoadOptions V) (th : HandlerOptions V) : V :=
  match th.vars with
  | some v => v
  | none =>
    match opts.vars with
    | some v => v
    | none => E.varsEmpty

/-- Line 120: `vars[page.file] || vars`. -/
def fileVars (E : Env V) (opts : LoadOptions V) (th : HandlerOptions V) (p : Page V) : V :=
  match E.varsGet (baseVars E opts th) p.file with
  | some v => v
  | none => baseVars E opts th

/-- State that outlives one invocation of the handler: the object `pages` and the
variable `content`, which line 118 assigns without declaring it. -/
structure Shared (V : Type) where
  pages : Index V
  content : Option (Content V)

/-- Where one invocation of the handler stands: not yet started, suspended at
`await thisOptions.getVars(page, req)`, suspended at `await content(thisVars)`, or
finished.  The value carried at a suspension is what the awaited call settles to. -/
inductive Task (V : Type) where
  | start (req : Request)
  | awaitVars (page : Page V) (vars : Except Err V)
  | awaitRender (page : Page V) (out : Except Err Str)
  | done

/-- Line 125: the response on a hit. -/
def respond (opts : LoadOptions V) (th : HandlerOptions V) (type : Option String)
    (body : Option (Content V)) : List (Action V) :=
  [.status 200, .set type (maxAge opts th), .send body]

/-- Line 122, the call `content(thisVars)`: it applies whatever the variable `content`
holds at that moment; a failure of the call surfaces through the `await`. -/
def callContent (g : Shared V) (page : Page V) (vars : V) :
    Shared V × Task V × List (Action V) :=
  match g.content with
  | some (.render f) => (g, .awaitRender page (f vars), [])
  | _ => (g, .done, [.next (some "TypeError: content is not a function")])

/-- One run of the handler body from its current point to the next `await` or to its
end, on the shared state `g`. -/
def step (E : Env V) (opts : LoadOptions V) (th : HandlerOptions V) (getVars : GetVars V)
    (g : Shared V) : Task V → Shared V × Task V × List (Action V)
  | .start req =>
    if methodAllowed req.method then
      match req.params with
      | none => (g, .done, [.next (some "TypeError: cannot read properties of undefined")])
      | some ps =>
        match g.pages.get (lookupKey ps req.path) with
        | none => (g, .done, notFound opts th)
        | some .other =>
          ({ g with content := none }, .done, respond opts th none none)
        | some (.page p) =>
          let g := { g with content := some p.content }
          if p.toRender then
            match getVars with
            | some gv => (g, .awaitVars p (gv p req), [])
            | none => callContent g p (fileVars E opts th p)
          else (g, .done, respond opts th (some p.type) g.content)
    else (g, .done, notFound opts th)
  | .awaitVars p r =>
    match r with
    | .error e => (g, .done, [.next (some e)])
    | .ok v => callContent g p v
  | .awaitRender p r =>
    match r with
    | .error e => (g, .done, [.next (some e)])
    | .ok s =>
      let g := { g with content := some (.text s) }
      (g, .done, respond opts th (some p.type) g.content)
  | .done => (g, .done, [])

/-- The state of one handler invocation with the calls it has made so far. -/
structure Run (V : Type) where
  shared : Shared V
  task : Task V
  trace : List (Action V)

/-- Resume the invocation once. -/
def Run.advance (E : Env V) (opts : LoadOptions V) (th : HandlerOptions V)
    (getVars : GetVars V) (r : Run V) : Run V :=
  let out := step E opts th getVars r.shared r.task
  { shared := out.1, task := out.2.1, trace := r.trace ++ out.2.2 }

/-- The handler run to completion with no other request interleaved: the body has two
`await`s, so three resumptions reach its end. -/
def handle (E : Env V) (opts : LoadOptions V) (th : HandlerOptions V) (getVars : GetVars V)
    (g : Shared V) (req : Request) : Run V :=
  let r : Run V := { shared := g, task := .start req, trace := [] }
  ((r.advance E opts th getVars).advance E opts th getVars).advance E opts th getVars

/-! ## A concrete environment -/

/-- A small `path.dirname`: everything before the last `/`. -/
def dirnameOf (p : Str) : Str :=
  ((p.reverse.dropWhile (fun c => c != '/')).drop 1).reverse

/-- An environment in which every package succeeds and leaves its input unchanged,
paths are already absolute, no file is a directory and every file holds its own path
as text. -/
def plainEnv : Env Unit where
  resolve := fun p => p
  dirname := dirnameOf
  join := fun a b => a ++ b
  glob := fun _ => []
  isDirectory := fun _ => .ok false
  readFileSync := fun p => .ok (p.map Char.toNat)
  decode := fun bs => bs.map Char.ofNat
  production := false
  babel := fun s _ _ _ => .ok s
  ejsCompile := fun s _ _ => .ok (fun _ => .ok s)
  handlebarsCompile := fun s => .ok (fun _ => .ok s)
  sass := fun s _ _ => .ok s
  optimizeCSS := fun s => .ok s
  htmlMinifier := fun s => .ok s
  csso := fun c =>
    match c with
    | .buffer b => .ok (b.map Char.ofNat)
    | .text t => .ok t
    | .render _ => .ok []
  terser := fun s => .code s
  mimeGetType := fun _ => none
  varsGet := fun _ _ => none
  varsEmpty := ()

/-- Load options with every field absent. -/
def noOptions : LoadOptions Unit :=
  { root := none, skip := none, hideHTMLExtension := none, minify := none, vars := none,
    displayErrors := none, cache := none }

/-- Handler options with every field absent. -/
def noHandlerOptions : HandlerOptions Unit :=
  { vars := none, displayErrors := none, cache := none }

/-- The keys of the own properties of `pages`, newest first. -/
def Index.keys (ix : Index V) : List Str := ix.own.map Prod.fst

/-- What a call on `res` or `next` shows, with a body reduced to its text. -/
inductive ActionView where
  | status (code : Nat)
  | set (contentType : Option String) (maxAge : JsNumber)
  | sendText (body : Option Str)
  | sendOther
  | next (err : Option Err)
  deriving DecidableEq

/-- The observable part of a call. -/
def Action.view : Action V → ActionView
  | .status n => .status n
  | .set t n => .set t n
  | .send none => .sendText none
  | .send (some (.text s)) => .sendText (some s)
  | .send (some _) => .sendOther
  | .next e => .next e

/-- Two invocations of the handler in flight on the same shared state, each with the
calls it has made so far. -/
structure Duo (V : Type) where
  shared : Shared V
  first : Task V × List (Action V)
  second : Task V × List (Action V)

/-- The event loop resumes one of the two invocations (`false`: the first, `true`: the
second) and runs it to its next `await` or to its end. -/
def Duo.resume (E : Env V) (opts : LoadOptions V) (th : HandlerOptions V)
    (getVars : GetVars V) (d : Duo V) (which : Bool) : Duo V :=
  if which then
    let out := step E opts th getVars d.shared d.second.1
    { shared := out.1, first := d.first, second := (out.2.1, d.second.2 ++ out.2.2) }
  else
    let out := step E opts th getVars d.shared d.first.1
    { shared := out.1, first := (out.2.1, d.first.2 ++ out.2.2), second := d.second }

/-- The two invocations resumed in the order of the schedule. -/
def Duo.run (E : Env V) (opts : LoadOptions V) (th : HandlerOptions V)
    (getVars : GetVars V) (d : Duo V) (schedule : List Bool) : Duo V :=
  schedule.foldl (Duo.resume E opts th getVars) d

/-- The index of a site, empty when `load` throws. -/
def loadedIndex (E : Env V) (src : Source) (opts : LoadOptions V) : Index V :=
  match load E src opts with
  | .ok ix => ix
  | .error _ => Index.empty

/-- A `GET` request for `path` with no router parameters set. -/
def getRequest (path : Str) : Request :=
  { method := "GET", params := some { file := none, rest := none }, path := path }

/-- The site made of the two templates `/site/a.ejs` and `/site/b.ejs`. -/
def twoTemplates : Shared Unit :=
  { pages := loadedIndex plainEnv
      (.files ["/site/a.ejs".toList, "/site/b.ejs".toList])
      { noOptions with root := some "/site".toList },
    content := none }

/-- The site made of the single static file `/site/a.txt`. -/
def oneStatic : Shared Unit :=
  { pages := loadedIndex plainEnv (.files ["/site/a.txt".toList])
      { noOptions with root := some "/site".toList },
    content := none }

/-- An environment whose script minifier reports an error on every input and whose
style optimizer rejects every input. -/
def rejectingEnv : Env Unit :=
  { plainEnv with
    terser := fun _ => .error "SyntaxError: unexpected token"
    optimizeCSS := fun _ => .error "CssSyntaxError: unknown word" }

/-- Whether the content is a compiled template. -/
def Content.isRender : Content V → Bool
  | .render _ => true
  | _ => false

/-- The content as text, when it is a string. -/
def Content.asText : Content V → Option Str
  | .text s => some s
  | _ => none

/-- An environment whose style optimizer marks the text it is given. -/
def markingEnv : Env Unit :=
  { plainEnv with optimizeCSS := fun s => .ok ("/*optimized*/".toList ++ s) }

/-- An environment whose style optimizer marks the text it is given and whose script
minifier reports an error on every input. -/
def markingRejectingEnv : Env Unit :=
  { markingEnv with terser := fun _ => .error "SyntaxError: unexpected token" }

/-! ## Closed forms used in the proofs -/

/-- Lines 86-96 for one file: compile it, rewrite `page.file`, store the page. -/
def storePage (E : Env V) (opts : LoadOptions V) (root : Str) (ix : Index V) (f : Str) :
    Except Err (Index V) := do
  let page ← compile E f (some root) opts.minify
  let page := { page with file := storedFile opts.hideHTMLExtension page.file }
  pure (ix.set page.file page)

/-- The files of a list compiled and stored one after the other. -/
def storeAll (E : Env V) (opts : LoadOptions V) (root : Str) :
    List Str → Index V → Except Err (Index V)
  | [], ix => .ok ix
  | f :: fs, ix => do
    let ix ← storePage E opts root ix f
    storeAll E opts root fs ix

/-- Whether `lstatSync` succeeds on the path and reports no directory. -/
def isFile (E : Env V) (f : Str) : Bool :=
  match E.isDirectory f with
  | .ok false => true
  | _ => false

/-- Whether the path contains `/` followed by one of the skip fragments. -/
def slashMatch (skip : Option (List Str)) (f : Str) : Bool :=
  match skip with
  | none => false
  | some frags => frags.any (fun frag => includes f ('/' :: frag))

/-- The segments of a path, the texts between its `/` characters. -/
def segments (path : Str) : List Str :=
  path.splitOn '/'

/-- Line 198: `mime.getType(name) || "text/plain"`. -/
def mimeType (E : Env V) (name : Str) : String :=
  match E.mimeGetType name with
  | some t => if t = "" then "text/plain" else t
  | none => "text/plain"

/-- The public path `compile` computes from a working name (lines 155-190). -/
def publicName (name : Str) : Str :=
  let n := if includes name dotJs then scriptName name else name
  if includes n dotEjs || includes n dotHandlebars then templateName n
  else if includes n dotSass || includes n dotScss then sassName n
  else n

/-- The content type `compile` computes from a working name. -/
def publicType (E : Env V) (name : Str) : String :=
  let n := if includes name dotJs then scriptName name else name
  if includes n dotEjs || includes n dotHandlebars then "text/html"
  else if includes n dotSass || includes n dotScss then "text/css"
  else if includes name dotJs then "application/javascript"
  else mimeType E n

/-- The public path of a working name with a single `.`, by the text after the dot. -/
def singleDotName (stem e : Str) : Str :=
  if ['j', 's'].isPrefixOf e then
    stem ++ e.drop (if ['j', 's', 'x'].isPrefixOf e then 3 else 2) ++ dotJs
  else if ['e', 'j', 's'].isPrefixOf e then stem ++ dotHtml ++ e.drop 3
  else if ['h', 'a', 'n', 'd', 'l', 'e', 'b', 'a', 'r', 's'].isPrefixOf e then
    stem ++ dotHtml ++ e.drop 10
  else if ['s', 'a', 's', 's'].isPrefixOf e then stem ++ dotCss ++ e.drop 4
  else if ['s', 'c', 's', 's'].isPrefixOf e then stem ++ dotCss ++ e.drop 4
  else stem ++ '.' :: e

/-- The text is empty or begins with a dot. -/
def dotHeaded : Str → Bool
  | [] => true
  | c :: _ => c == '.'

/-- The stem contains none of `.js`, `.ejs`, `.handlebars`, `.sass`, `.scss`. -/
def markerFree (s : Str) : Bool :=
  !includes s dotJs && !includes s dotEjs && !includes s dotHandlebars &&
    !includes s dotSass && !includes s dotScss

/-- The texts a marker-free stem may be followed by: nothing or one marker. -/
def extensions : List Str := [[], dotJs, dotJsx, dotEjs, dotHandlebars, dotSass, dotScss]

/-- The public path of a marker-free stem followed by one marker. -/
def suffixName (s m : Str) : Str :=
  if m = dotJs ∨ m = dotJsx then s ++ dotJs
  else if m = dotEjs ∨ m = dotHandlebars then s ++ (if includes s dotHtml then [] else dotHtml)
  else if m = dotSass ∨ m = dotScss then s ++ (if includes s dotCss then [] else dotCss)
  else s

/-! ## String lemmas -/

theorem includes_iff (s pat : Str) : includes s pat = true ↔ pat <:+: s := by
  induction s with
  | nil =>
    cases pat <;> simp [includes, List.isPrefixOf]
  | cons c t ih =>
    simp only [includes, Bool.or_eq_true, ih, List.infix_cons_iff, List.isPrefixOf_iff_prefix]

theorem includes_append_of_not_mem (d : Char) (m s t : Str) (h : d ∉ s) :
    includes (s ++ t) (d :: m) = includes t (d :: m) := by
  induction s with
  | nil => rfl
  | cons c s ih =>
    have hc : d ≠ c := fun e => h (e ▸ List.mem_cons_self _ _)
    have hs : d ∉ s := fun e => h (List.mem_cons_of_mem _ e)
    simp [includes, List.isPrefixOf, hc, ih hs]

theorem replaceFirst_append_of_not_mem (d : Char) (m rep s t : Str) (h : d ∉ s) :
    replaceFirst (d :: m) rep (s ++ t) = s ++ replaceFirst (d :: m) rep t := by
  induction s with
  | nil => rfl
  | cons c s ih =>
    have hc : d ≠ c := fun e => h (e ▸ List.mem_cons_self _ _)
    have hs : d ∉ s := fun e => h (List.mem_cons_of_mem _ e)
    simp [replaceFirst, List.isPrefixOf, hc, ih hs]

theorem replaceFirst_of_not_includes (pat rep s : Str) (h : includes s pat = false) :
    replaceFirst pat rep s = s := by
  induction s with
  | nil =>
    simp only [includes] at h
    simp [replaceFirst, h]
  | cons c t ih =>
    simp only [includes, Bool.or_eq_false_iff] at h
    simp [replaceFirst, h.1, ih h.2]

theorem replaceFirst_cons_of_not_prefix (pat rep : Str) (c : Char) (t : Str)
    (h : pat.isPrefixOf (c :: t) = false) :
    replaceFirst pat rep (c :: t) = c :: replaceFirst pat rep t := by
  simp [replaceFirst, h]

theorem replaceFirst_first (pat rep q r : Str)
    (h : ¬ pat <:+: q ++ pat.dropLast) :
    replaceFirst pat rep (q ++ pat ++ r) = q ++ rep ++ r := by
  induction q with
  | nil =>
    cases pat with
    | nil => exact absurd List.nil_infix h
    | cons a p =>
      have : (a :: p).isPrefixOf (a :: (p ++ r)) = true := by
        rw [List.isPrefixOf_iff_prefix]; exact ⟨r, rfl⟩
      simp only [List.nil_append, List.cons_append, replaceFirst, this, if_true]
      simp
  | cons c q ih =>
    cases pat with
    | nil => exact absurd List.nil_infix h
    | cons a p =>
      have hnp : (a :: p).isPrefixOf (c :: (q ++ (a :: p) ++ r)) = false := by
        rw [Bool.eq_false_iff]
        intro hp
        rw [List.isPrefixOf_iff_prefix] at hp
        apply h
        have h1 : (c :: q ++ (a :: p).dropLast) <+: c :: (q ++ (a :: p) ++ r) := by
          refine ⟨[(a :: p).getLast (by simp)] ++ r, ?_⟩
          have e := List.dropLast_append_getLast (l := a :: p) (by simp)
          calc c :: q ++ (a :: p).dropLast ++ ([(a :: p).getLast (by simp)] ++ r)
              = c :: (q ++ (((a :: p).dropLast ++ [(a :: p).getLast (by simp)]) ++ r)) := by
                simp
            _ = c :: (q ++ (a :: p) ++ r) := by rw [e]; simp
        have h2 : (a :: p).length ≤ (c :: q ++ (a :: p).dropLast).length := by
          simp
        exact (List.prefix_of_prefix_length_le hp h1 h2).isInfix
      have hq : ¬ (a :: p) <:+: q ++ (a :: p).dropLast := by
        intro hi; apply h
        exact hi.trans (List.suffix_cons c _).isInfix
      have e : c :: q ++ (a :: p) ++ r = c :: (q ++ (a :: p) ++ r) := rfl
      rw [e, replaceFirst_cons_of_not_prefix _ _ _ _ hnp, ih hq]
      rfl

/-! ## Extension hiding -/

/-- C1, as stated, fails: loading the single file `/site/a/index.html` under the root
`/site` stores it under the key `/a`, not `/a/`. -/
theorem load_hide_index_counterexample :
    (load plainEnv (.files ["/site/a/index.html".toList])
        { noOptions with root := some "/site".toList }).toOption.map Index.keys
      = some ["/a".toList] ∧
    storedFile none "/a/index.html".toList ≠ "/a/".toList := by
  decide

/-- C1, amended: with extension hiding on, the first occurrence of `/index.html` in the
public path is removed entirely; failing that, the first occurrence of `.html` is
removed; a path containing neither is kept; and an empty result is stored as `/`. -/
theorem load_hide_removes_first_occurrence (hide : Option Bool)
    (hon : hide = none ∨ hide = some true) (p : Str) :
    (∀ q r, p = q ++ slashIndexHtml ++ r →
        ¬ slashIndexHtml <:+: q ++ slashIndexHtml.dropLast →
        storedFile hide p = if q ++ r = [] then "/".toList else q ++ r) ∧
    (¬ slashIndexHtml <:+: p → ∀ q r, p = q ++ dotHtml ++ r →
        ¬ dotHtml <:+: q ++ dotHtml.dropLast →
        storedFile hide p = if q ++ r = [] then "/".toList else q ++ r) ∧
    (¬ dotHtml <:+: p → storedFile hide p = if p = [] then "/".toList else p) := by
  have hs : storedFile hide p = hideExtension p := by
    rcases hon with h | h <;> subst h <;> rfl
  refine ⟨?_, ?_, ?_⟩
  · intro q r hp hfirst
    have hin : includes p slashIndexHtml = true := by
      rw [includes_iff, hp]; exact ⟨q, r, rfl⟩
    rw [hs, hideExtension, if_pos hin, hp, replaceFirst_first _ _ _ _ hfirst]
    simp
  · intro hno q r hp hfirst
    have hni : includes p slashIndexHtml = false := by
      rw [Bool.eq_false_iff]; intro h; exact hno ((includes_iff _ _).1 h)
    have hin : includes p dotHtml = true := by
      rw [includes_iff, hp]; exact ⟨q, r, rfl⟩
    rw [hs, hideExtension]
    simp only [hni, hin, if_true, Bool.false_eq_true, if_false]
    rw [hp, replaceFirst_first _ _ _ _ hfirst]
    simp
  · intro hno
    have hnh : includes p dotHtml = false := by
      rw [Bool.eq_false_iff]; intro h; exact hno ((includes_iff _ _).1 h)
    have hni : includes p slashIndexHtml = false := by
      rw [Bool.eq_false_iff]; intro h
      have h1 : slashIndexHtml <:+: p := (includes_iff _ _).1 h
      have h2 : dotHtml <:+: slashIndexHtml := by decide
      exact hno (h2.trans h1)
    rw [hs, hideExtension]
    simp [hni, hnh]

/-- The amended C1 at `/a/index.html`, whose only `/index.html` is its end. -/
theorem load_hide_removes_first_occurrence_witness :
    storedFile none "/a/index.html".toList = "/a".toList :=
  (load_hide_removes_first_occurrence none (Or.inl rfl) "/a/index.html".toList).1
    "/a".toList [] (by decide) (by decide)

/-! ## The name and type computed by compile -/

theorem compileTemplate_ok (E : Env V) (m : Option Bool) (path root name : Str) (c : Content V)
    (pg : Page V) (h : compileTemplate E m path root name c = .ok pg) :
    pg.file = templateName name ∧ pg.type = "text/html" ∧ pg.toRender = true := by
  unfold compileTemplate at h
  simp only [bind, Except.bind, pure, Except.pure] at h
  repeat' split at h
  all_goals first
    | (injection h with h; subst h; simp [templateName, *])
    | (simp at h)

theorem compileStatic_ok (E : Env V) (m : Option Bool) (path name : Str) (c : Content V)
    (ty : Option String) (pg : Page V) (h : compileStatic E m path name c ty = .ok pg) :
    pg.toRender = false ∧
    pg.file = (if includes name dotSass || includes name dotScss then sassName name else name) ∧
    pg.type = (if includes name dotSass || includes name dotScss then "text/css"
               else match ty with
                 | some t => t
                 | none => mimeType E name) := by
  unfold compileStatic at h
  simp only [bind, Except.bind, pure, Except.pure, Except.map] at h
  repeat' split at h
  all_goals first
    | (injection h with h; subst h; simp_all [mimeType])
    | (simp at h)

theorem compile_ok (E : Env V) (path : Str) (root : Option Str) (m : Option Bool)
    (pg : Page V) (h : compile E path root m = .ok pg) :
    pg.file = publicName (workingName E path root) ∧
    pg.type = publicType E (workingName E path root) := by
  unfold compile at h
  simp only [bind, Except.bind, pure, Except.pure] at h
  unfold publicName publicType workingName
  repeat' split at h
  all_goals first
    | (have h1 := compileTemplate_ok _ _ _ _ _ _ _ h; simp_all)
    | (have h1 := compileStatic_ok _ _ _ _ _ _ _ h; simp_all)
    | (simp at h)

theorem includes_of_not_mem (d : Char) (m s : Str) (h : d ∉ s) :
    includes s (d :: m) = false := by
  have := includes_append_of_not_mem d m s [] h
  simpa [includes, List.isPrefixOf] using this

theorem replaceFirst_id_of_not_mem (d : Char) (m rep s : Str) (h : d ∉ s) :
    replaceFirst (d :: m) rep s = s :=
  replaceFirst_of_not_includes _ _ _ (includes_of_not_mem d m s h)

theorem includes_single_dot (stem e m : Str) (hs : '.' ∉ stem) (he : '.' ∉ e) :
    includes (stem ++ '.' :: e) ('.' :: m) = m.isPrefixOf e := by
  rw [includes_append_of_not_mem _ _ _ _ hs]
  simp [includes, List.isPrefixOf, includes_of_not_mem _ m e he]

theorem replaceFirst_single_dot (stem e m rep : Str) (hs : '.' ∉ stem) (he : '.' ∉ e) :
    replaceFirst ('.' :: m) rep (stem ++ '.' :: e) =
      stem ++ (if m.isPrefixOf e then rep ++ e.drop m.length else '.' :: e) := by
  rw [replaceFirst_append_of_not_mem _ _ _ _ _ hs]
  simp [replaceFirst, List.isPrefixOf, replaceFirst_id_of_not_mem _ m rep e he]

theorem not_mem_append_drop (stem e : Str) (k : Nat) (hs : '.' ∉ stem) (he : '.' ∉ e) :
    '.' ∉ stem ++ e.drop k := by
  intro h
  rcases List.mem_append.1 h with h | h
  · exact hs h
  · exact he (List.mem_of_mem_drop h)

theorem not_both_isPrefixOf (p q e : Str) (hpq : p.isPrefixOf q = false)
    (hqp : q.isPrefixOf p = false) (h : p.isPrefixOf e = true) : q.isPrefixOf e = false := by
  rw [Bool.eq_false_iff]
  intro h2
  rw [List.isPrefixOf_iff_prefix] at h h2
  rcases List.prefix_or_prefix_of_prefix h h2 with h3 | h3
  · rw [← List.isPrefixOf_iff_prefix] at h3; simp [hpq] at h3
  · rw [← List.isPrefixOf_iff_prefix] at h3; simp [hqp] at h3

theorem scriptName_single_dot (stem e : Str) (hs : '.' ∉ stem) (he : '.' ∉ e)
    (hjs : ['j', 's'].isPrefixOf e = true) :
    scriptName (stem ++ '.' :: e) =
      stem ++ e.drop (if ['j', 's', 'x'].isPrefixOf e then 3 else 2) ++ dotJs := by
  unfold scriptName
  by_cases hx : ['j', 's', 'x'].isPrefixOf e = true
  · have h1 : replaceFirst dotJsx [] (stem ++ '.' :: e) = stem ++ e.drop 3 := by
      simp [dotJsx, replaceFirst_single_dot _ _ _ _ hs he, hx]
    have hd := not_mem_append_drop stem e 3 hs he
    simp only [h1, dotJs, replaceFirst_id_of_not_mem _ _ _ _ hd, includes_of_not_mem _ _ _ hd, hx]
    simp
  · have h1 : replaceFirst dotJsx [] (stem ++ '.' :: e) = stem ++ '.' :: e := by
      simp [dotJsx, replaceFirst_single_dot _ _ _ _ hs he, hx]
    have hd := not_mem_append_drop stem e 2 hs he
    have h2 : replaceFirst dotJs [] (stem ++ '.' :: e) = stem ++ e.drop 2 := by
      simp [dotJs, replaceFirst_single_dot _ _ _ _ hs he, hjs]
    simp only [h1, h2]
    simp only [dotJs, includes_of_not_mem _ _ _ hd, hx]
    simp

theorem publicName_single_dot (stem e : Str) (hs : '.' ∉ stem) (he : '.' ∉ e) :
    publicName (stem ++ '.' :: e) = singleDotName stem e := by
  unfold publicName singleDotName
  by_cases hjs : ['j', 's'].isPrefixOf e = true
  · have hin : includes (stem ++ '.' :: e) dotJs = true := by
      simp [dotJs, includes_single_dot _ _ _ hs he, hjs]
    simp only [hin, if_true, hjs, scriptName_single_dot stem e hs he hjs]
    generalize (if ['j', 's', 'x'].isPrefixOf e = true then 3 else 2) = k
    have hd := not_mem_append_drop stem e k hs he
    have hjs0 : '.' ∉ ['j', 's'] := by decide
    generalize stem ++ e.drop k = s1 at hd
    have e1 : s1 ++ dotJs = s1 ++ '.' :: ['j', 's'] := rfl
    rw [e1]
    simp [dotEjs, dotHandlebars, dotSass, dotScss, includes_single_dot _ _ _ hd hjs0,
      List.isPrefixOf]
  · have hin : includes (stem ++ '.' :: e) dotJs = false := by
      simp [dotJs, includes_single_dot _ _ _ hs he, hjs]
    simp only [hin, hjs, Bool.false_eq_true, if_false]
    simp only [dotEjs, dotHandlebars, dotSass, dotScss, dotCss, dotHtml, templateName, sassName,
      includes_single_dot _ _ _ hs he, replaceFirst_single_dot _ _ _ _ hs he]
    by_cases h1 : ['e', 'j', 's'].isPrefixOf e = true
    · have h5 : ['h', 't', 'm', 'l'].isPrefixOf e = false :=
        not_both_isPrefixOf _ _ e (by decide) (by decide) h1
      simp [h1, h5]
    · by_cases h2 : ['h', 'a', 'n', 'd', 'l', 'e', 'b', 'a', 'r', 's'].isPrefixOf e = true
      · have h5 : ['h', 't', 'm', 'l'].isPrefixOf e = false :=
          not_both_isPrefixOf _ _ e (by decide) (by decide) h2
        simp [h1, h2, h5]
      · by_cases h3 : ['s', 'a', 's', 's'].isPrefixOf e = true
        · have h5 : ['c', 's', 's'].isPrefixOf e = false :=
            not_both_isPrefixOf _ _ e (by decide) (by decide) h3
          have hd : '.' ∉ ['c', 's', 's'] ++ e.drop 4 := by
            intro h
            rcases List.mem_append.1 h with h | h
            · exact absurd h (by decide)
            · exact he (List.mem_of_mem_drop h)
          have h6 := replaceFirst_single_dot stem (['c', 's', 's'] ++ e.drop 4)
            ['s', 'c', 's', 's'] ['.', 'c', 's', 's'] hs hd
          simp only [List.cons_append, List.nil_append] at h6
          simp [h1, h2, h3, h5, h6, List.isPrefixOf]
        · by_cases h4 : ['s', 'c', 's', 's'].isPrefixOf e = true
          · have h5 : ['c', 's', 's'].isPrefixOf e = false :=
              not_both_isPrefixOf _ _ e (by decide) (by decide) h4
            simp [h1, h2, h3, h4, h5, replaceFirst_single_dot _ _ _ _ hs he]
          · simp [h1, h2, h3, h4]

theorem ne_error_of_ok {α : Type} {x : Except Err α} (h : ∃ a, x = .ok a) (e : Err) :
    x ≠ .error e := by
  obtain ⟨a, ha⟩ := h
  rw [ha]
  intro h2
  cases h2

theorem ok_map {α β : Type} {x : Except Err α} (g : α → β) (hx : ∃ a, x = .ok a) :
    ∃ b, x.map g = .ok b := by
  obtain ⟨a, ha⟩ := hx
  exact ⟨g a, by rw [ha]; rfl⟩

/-- When reading the file and every transform succeed, `compile` returns an artifact. -/
theorem compile_returns (E : Env V) (path : Str) (root : Option Str) (m : Option Bool)
    (hread : ∀ p, ∃ b, E.readFileSync p = .ok b)
    (hbabel : ∀ t n r o, ∃ c, E.babel t n r o = .ok c)
    (hejs : ∀ t p r, ∃ f, E.ejsCompile t p r = .ok f)
    (hhbs : ∀ t, ∃ f, E.handlebarsCompile t = .ok f)
    (hsass : ∀ t p i, ∃ c, E.sass t p i = .ok c)
    (hopt : ∀ t, ∃ c, E.optimizeCSS t = .ok c)
    (hhtml : ∀ t, ∃ c, E.htmlMinifier t = .ok c)
    (hcsso : ∀ t, ∃ c, E.csso t = .ok c) :
    ∃ pg, compile E path root m = .ok pg := by
  have hmin : ∀ (c : Content V) (ty : String) (e : Err), minify E c ty ≠ .error e := by
    intro c ty e h
    unfold minify at h
    repeat' split at h
    all_goals first
      | exact ne_error_of_ok (ok_map _ (hhtml _)) _ h
      | exact ne_error_of_ok (ok_map _ (hcsso _)) _ h
      | (simp at h)
  have htemplate : ∀ (o : Option Bool) (p r n : Str) (c : Content V) (e : Err),
      compileTemplate E o p r n c ≠ .error e := by
    intro o p r n c e h
    unfold compileTemplate at h
    simp only [bind, Except.bind, pure, Except.pure] at h
    repeat' split at h
    all_goals first
      | exact hmin _ _ _ ‹_›
      | exact ne_error_of_ok (hejs _ _ _) _ ‹_›
      | exact ne_error_of_ok (hhbs _) _ ‹_›
      | (simp at h)
  have hstatic : ∀ (o : Option Bool) (p n : Str) (c : Content V) (ty : Option String)
      (e : Err), compileStatic E o p n c ty ≠ .error e := by
    intro o p n c ty e h
    unfold compileStatic at h
    simp only [bind, Except.bind, pure, Except.pure] at h
    repeat' split at h
    all_goals first
      | exact hmin _ _ _ ‹_›
      | exact ne_error_of_ok (hsass _ _ _) _ ‹_›
      | exact ne_error_of_ok (ok_map _ (hopt _)) _ ‹_›
      | (simp at h)
  cases hc : compile E path root m with
  | ok pg => exact ⟨pg, rfl⟩
  | error e =>
    exfalso
    unfold compile at hc
    simp only [bind, Except.bind, pure, Except.pure] at hc
    repeat' split at hc
    all_goals first
      | exact htemplate _ _ _ _ _ _ hc
      | exact hstatic _ _ _ _ _ _ hc
      | exact ne_error_of_ok (hread _) _ ‹_›
      | exact ne_error_of_ok (hbabel _ _ _ _) _ ‹_›

/-! ## The rewrite table -/

/-- C2, as stated, fails: `.json` is none of the six extensions, yet `/data.json` is
served as `/dataon.js` with the script type. -/
theorem compile_json_counterexample :
    workingName plainEnv "/site/data.json".toList (some "/site".toList)
      = "/data".toList ++ ".json".toList ∧
    (compile plainEnv "/site/data.json".toList (some "/site".toList) none).toOption.map
        (fun pg => (pg.file, pg.type))
      = some ("/dataon.js".toList, "application/javascript") := by
  decide

/-- C2, amended: for a working name `stem.e` with a single dot, `compile` maps the
extension `jsx` or `js` to `stem.js` (script), `ejs` or `handlebars` to `stem.html`
(markup), `sass` or `scss` to `stem.css` (style); and for every extension that does not
begin with `js`, `ejs`, `handlebars`, `sass` or `scss` the name is unchanged and the type
is the MIME lookup of the name, `text/plain` when the lookup finds nothing. -/
theorem compile_rewrite_table (E : Env V) (path : Str) (root : Option Str)
    (m : Option Bool) (pg : Page V) (h : compile E path root m = .ok pg)
    (stem e : Str) (hname : workingName E path root = stem ++ '.' :: e)
    (hstem : '.' ∉ stem) (he : '.' ∉ e) :
    ((e = ['j', 's', 'x'] ∨ e = ['j', 's']) →
        pg.file = stem ++ ['.', 'j', 's'] ∧ pg.type = "application/javascript") ∧
    ((e = ['e', 'j', 's'] ∨ e = ['h', 'a', 'n', 'd', 'l', 'e', 'b', 'a', 'r', 's']) →
        pg.file = stem ++ ['.', 'h', 't', 'm', 'l'] ∧ pg.type = "text/html") ∧
    ((e = ['s', 'a', 's', 's'] ∨ e = ['s', 'c', 's', 's']) →
        pg.file = stem ++ ['.', 'c', 's', 's'] ∧ pg.type = "text/css") ∧
    (¬ ['j', 's'] <+: e → ¬ ['e', 'j', 's'] <+: e →
      ¬ ['h', 'a', 'n', 'd', 'l', 'e', 'b', 'a', 'r', 's'] <+: e →
      ¬ ['s', 'a', 's', 's'] <+: e → ¬ ['s', 'c', 's', 's'] <+: e →
        pg.file = stem ++ '.' :: e ∧
        (∀ t, E.mimeGetType (stem ++ '.' :: e) = some t → t ≠ "" → pg.type = t) ∧
        (E.mimeGetType (stem ++ '.' :: e) = none → pg.type = "text/plain")) := by
  obtain ⟨hfile, htype⟩ := compile_ok E path root m pg h
  rw [hname] at hfile htype
  rw [publicName_single_dot stem e hstem he] at hfile
  have hty : pg.type =
      if ['j', 's'].isPrefixOf e then
        "application/javascript"
      else if ['e', 'j', 's'].isPrefixOf e ||
          ['h', 'a', 'n', 'd', 'l', 'e', 'b', 'a', 'r', 's'].isPrefixOf e then "text/html"
      else if ['s', 'a', 's', 's'].isPrefixOf e || ['s', 'c', 's', 's'].isPrefixOf e then
        "text/css"
      else mimeType E (stem ++ '.' :: e) := by
    rw [htype, publicType]
    by_cases hjs : ['j', 's'].isPrefixOf e = true
    · have hin : includes (stem ++ '.' :: e) dotJs = true := by
        simp [dotJs, includes_single_dot _ _ _ hstem he, hjs]
      simp only [hin, if_true, hjs, scriptName_single_dot stem e hstem he hjs]
      generalize (if ['j', 's', 'x'].isPrefixOf e = true then 3 else 2) = k
      have hd := not_mem_append_drop stem e k hstem he
      have hjs0 : '.' ∉ ['j', 's'] := by decide
      generalize stem ++ e.drop k = s1 at hd
      have e1 : s1 ++ dotJs = s1 ++ '.' :: ['j', 's'] := rfl
      rw [e1]
      simp [dotEjs, dotHandlebars, dotSass, dotScss, includes_single_dot _ _ _ hd hjs0,
        List.isPrefixOf]
    · have hin : includes (stem ++ '.' :: e) dotJs = false := by
        simp [dotJs, includes_single_dot _ _ _ hstem he, hjs]
      simp only [hin, hjs, Bool.false_eq_true, if_false]
      simp only [dotEjs, dotHandlebars, dotSass, dotScss,
        includes_single_dot _ _ _ hstem he]
  refine ⟨?_, ?_, ?_, ?_⟩
  · rintro (rfl | rfl)
    · exact ⟨by rw [hfile]; simp [singleDotName, dotJs, dotHtml, dotCss, List.isPrefixOf],
        by rw [hty]; simp [List.isPrefixOf]⟩
    · exact ⟨by rw [hfile]; simp [singleDotName, dotJs, dotHtml, dotCss, List.isPrefixOf],
        by rw [hty]; simp [List.isPrefixOf]⟩
  · rintro (rfl | rfl)
    · exact ⟨by rw [hfile]; simp [singleDotName, dotJs, dotHtml, dotCss, List.isPrefixOf],
        by rw [hty]; simp [List.isPrefixOf]⟩
    · exact ⟨by rw [hfile]; simp [singleDotName, dotJs, dotHtml, dotCss, List.isPrefixOf],
        by rw [hty]; simp [List.isPrefixOf]⟩
  · rintro (rfl | rfl)
    · exact ⟨by rw [hfile]; simp [singleDotName, dotJs, dotHtml, dotCss, List.isPrefixOf],
        by rw [hty]; simp [List.isPrefixOf]⟩
    · exact ⟨by rw [hfile]; simp [singleDotName, dotJs, dotHtml, dotCss, List.isPrefixOf],
        by rw [hty]; simp [List.isPrefixOf]⟩
  · intro h1 h2 h3 h4 h5
    rw [← List.isPrefixOf_iff_prefix, Bool.not_eq_true] at h1 h2 h3 h4 h5
    have hf : pg.file = stem ++ '.' :: e := by
      rw [hfile]; simp [singleDotName, h1, h2, h3, h4, h5]
    have ht : pg.type = mimeType E (stem ++ '.' :: e) := by
      rw [hty]; simp [h1, h2, h3, h4, h5]
    refine ⟨hf, ?_, ?_⟩
    · intro t hm hne
      rw [ht, mimeType, hm]; simp [hne]
    · intro hm
      rw [ht, mimeType, hm]

/-- The rewrite table on two concrete files: `/a.jsx` and `/a.txt` under the root `/site`. -/
theorem compile_rewrite_table_witness :
    (∃ pg : Page Unit,
      compile plainEnv "/site/a.jsx".toList (some "/site".toList) none = .ok pg ∧
      pg.file = "/a.js".toList ∧ pg.type = "application/javascript") ∧
    (∃ pg : Page Unit,
      compile plainEnv "/site/a.txt".toList (some "/site".toList) none = .ok pg ∧
      pg.file = "/a.txt".toList) :=
  ⟨⟨_, rfl, (compile_rewrite_table plainEnv "/site/a.jsx".toList (some "/site".toList) none _
      rfl "/a".toList ['j', 's', 'x'] (by decide) (by decide) (by decide)).1 (Or.inl rfl)⟩,
   ⟨_, rfl, ((compile_rewrite_table plainEnv "/site/a.txt".toList (some "/site".toList) none _
      rfl "/a".toList ['t', 'x', 't'] (by decide) (by decide) (by decide)).2.2.2
      (by decide) (by decide) (by decide) (by decide) (by decide)).1⟩⟩

/-! ## Source markers in the public path -/

theorem count_dot_le_one (name : Str) (h : name.count '.' ≤ 1) :
    '.' ∉ name ∨ ∃ stem e, name = stem ++ '.' :: e ∧ '.' ∉ stem ∧ '.' ∉ e := by
  induction name with
  | nil => left; simp
  | cons c t ih =>
    by_cases hc : c = '.'
    · subst hc
      right
      refine ⟨[], t, rfl, by simp, ?_⟩
      simp only [List.count_cons_self] at h
      exact List.count_eq_zero.1 (by omega)
    · have hc2 : ('.' : Char) ≠ c := fun e => hc e.symm
      rw [List.count_cons_of_ne hc2] at h
      rcases ih h with h1 | ⟨stem, e, h1, h2, h3⟩
      · left; simp [hc2, h1]
      · right
        exact ⟨c :: stem, e, by rw [h1]; rfl, by simp [hc2, h2], h3⟩

theorem isPrefixOf_trans (p q e : Str) (hpq : p.isPrefixOf q = true)
    (h : q.isPrefixOf e = true) : p.isPrefixOf e = true := by
  rw [List.isPrefixOf_iff_prefix] at hpq h ⊢
  exact hpq.trans h

theorem includes_singleDotName (stem e m : Str) (hs : '.' ∉ stem) (he : '.' ∉ e) :
    includes (singleDotName stem e) ('.' :: m) =
      if ['j', 's'].isPrefixOf e then m.isPrefixOf ['j', 's']
      else if ['e', 'j', 's'].isPrefixOf e then m.isPrefixOf (['h', 't', 'm', 'l'] ++ e.drop 3)
      else if ['h', 'a', 'n', 'd', 'l', 'e', 'b', 'a', 'r', 's'].isPrefixOf e then
        m.isPrefixOf (['h', 't', 'm', 'l'] ++ e.drop 10)
      else if ['s', 'a', 's', 's'].isPrefixOf e then m.isPrefixOf (['c', 's', 's'] ++ e.drop 4)
      else if ['s', 'c', 's', 's'].isPrefixOf e then m.isPrefixOf (['c', 's', 's'] ++ e.drop 4)
      else m.isPrefixOf e := by
  have hdrop : ∀ (w : Str) (k : Nat), '.' ∉ w → '.' ∉ w ++ e.drop k := by
    intro w k hw h
    rcases List.mem_append.1 h with h | h
    · exact hw h
    · exact he (List.mem_of_mem_drop h)
  unfold singleDotName
  by_cases h0 : ['j', 's'].isPrefixOf e = true
  · simp only [h0, if_true]
    generalize (if ['j', 's', 'x'].isPrefixOf e = true then 3 else 2) = k
    have hd := not_mem_append_drop stem e k hs he
    generalize stem ++ e.drop k = s1 at hd
    exact includes_single_dot s1 ['j', 's'] m hd (by decide)
  rw [if_neg h0, if_neg h0]
  by_cases h1 : ['e', 'j', 's'].isPrefixOf e = true
  · rw [if_pos h1, if_pos h1]
    have := includes_single_dot stem (['h', 't', 'm', 'l'] ++ e.drop 3) m hs
      (hdrop _ 3 (by decide))
    simpa [dotHtml] using this
  rw [if_neg h1, if_neg h1]
  by_cases h2 : ['h', 'a', 'n', 'd', 'l', 'e', 'b', 'a', 'r', 's'].isPrefixOf e = true
  · rw [if_pos h2, if_pos h2]
    have := includes_single_dot stem (['h', 't', 'm', 'l'] ++ e.drop 10) m hs
      (hdrop _ 10 (by decide))
    simpa [dotHtml] using this
  rw [if_neg h2, if_neg h2]
  by_cases h3 : ['s', 'a', 's', 's'].isPrefixOf e = true
  · rw [if_pos h3, if_pos h3]
    have := includes_single_dot stem (['c', 's', 's'] ++ e.drop 4) m hs
      (hdrop _ 4 (by decide))
    simpa [dotCss] using this
  rw [if_neg h3, if_neg h3]
  by_cases h4 : ['s', 'c', 's', 's'].isPrefixOf e = true
  · rw [if_pos h4, if_pos h4]
    have := includes_single_dot stem (['c', 's', 's'] ++ e.drop 4) m hs
      (hdrop _ 4 (by decide))
    simpa [dotCss] using this
  rw [if_neg h4, if_neg h4]
  exact includes_single_dot stem e m hs he

/-- C3, as stated, fails: the file `/a.ejs.ejs` is served under `/a.html.ejs`, which
still contains `.ejs`. -/
theorem compile_marker_counterexample :
    (compile plainEnv "/site/a.ejs.ejs".toList (some "/site".toList) none).toOption.map
        (fun pg => (pg.file, includes pg.file dotEjs))
      = some ("/a.html.ejs".toList, true) := by
  decide

theorem isPrefixOf_append_dotHeaded (w s m : Str) (hw : '.' ∉ w) (hm : dotHeaded m = true) :
    w.isPrefixOf (s ++ m) = w.isPrefixOf s := by
  induction w generalizing s with
  | nil => simp [List.isPrefixOf]
  | cons a w ih =>
    have ha : a ≠ '.' := fun e => hw (e ▸ List.mem_cons_self _ _)
    have hw2 : '.' ∉ w := fun e => hw (List.mem_cons_of_mem _ e)
    cases s with
    | nil =>
      cases m with
      | nil => rfl
      | cons c v =>
        have hc : c = '.' := by simpa [dotHeaded] using hm
        subst hc
        simp [List.isPrefixOf, ha]
    | cons b s =>
      simp only [List.cons_append, List.isPrefixOf, List.append_eq, ih s hw2]

theorem includes_append_dotHeaded (w s m : Str) (hw : '.' ∉ w) (hm : dotHeaded m = true) :
    includes (s ++ m) ('.' :: w) = (includes s ('.' :: w) || includes m ('.' :: w)) := by
  induction s with
  | nil => simp [includes, List.isPrefixOf]
  | cons c s ih =>
    have e := isPrefixOf_append_dotHeaded w s m hw hm
    simp only [List.cons_append, includes, List.isPrefixOf, List.append_eq, e, ih,
      Bool.or_assoc]

theorem replaceFirst_append_dotHeaded (w rep s m : Str) (hw : '.' ∉ w)
    (hm : dotHeaded m = true) (hs : includes s ('.' :: w) = false) :
    replaceFirst ('.' :: w) rep (s ++ m) = s ++ replaceFirst ('.' :: w) rep m := by
  induction s with
  | nil => rfl
  | cons c s ih =>
    simp only [includes, Bool.or_eq_false_iff] at hs
    have e := isPrefixOf_append_dotHeaded w s m hw hm
    have hp : ('.' :: w).isPrefixOf (c :: (s ++ m)) = false := by
      have := hs.1
      simp only [List.isPrefixOf] at this ⊢
      rw [e]; exact this
    rw [List.cons_append, replaceFirst_cons_of_not_prefix _ _ _ _ hp, ih hs.2]
    rfl

theorem markerFree_jsx (s : Str) (h : includes s dotJs = false) :
    includes s dotJsx = false := by
  rw [Bool.eq_false_iff] at h ⊢
  intro hx
  apply h
  rw [includes_iff] at hx ⊢
  exact (by decide : dotJs <:+: dotJsx).trans hx

theorem publicName_suffix (s m : Str) (hs : markerFree s = true) (hm : m ∈ extensions) :
    publicName (s ++ m) = suffixName s m := by
  simp only [markerFree, Bool.and_eq_true, Bool.not_eq_true'] at hs
  obtain ⟨⟨⟨⟨h1, h2⟩, h3⟩, h4⟩, h5⟩ := hs
  have hx := markerFree_jsx s h1
  simp only [dotJs, dotJsx, dotEjs, dotHandlebars, dotSass, dotScss] at h1 h2 h3 h4 h5 hx
  simp only [extensions, List.mem_cons, List.mem_singleton, List.not_mem_nil, or_false] at hm
  rcases hm with rfl | rfl | rfl | rfl | rfl | rfl | rfl
  · simp [publicName, suffixName, dotJs, dotJsx, dotEjs, dotHandlebars, dotSass, dotScss,
      h1, h2, h3, h4, h5]
  all_goals
    by_cases hh : includes s ['.', 'h', 't', 'm', 'l'] = true <;>
    by_cases hc : includes s ['.', 'c', 's', 's'] = true <;>
    simp (disch := first | decide | assumption) [publicName, suffixName, scriptName,
      templateName, sassName, dotJs, dotJsx, dotEjs, dotHandlebars, dotSass, dotScss, dotHtml,
      dotCss, includes_append_dotHeaded, replaceFirst_append_dotHeaded,
      replaceFirst_of_not_includes, includes,
      replaceFirst, List.isPrefixOf, h1, h2, h3, h4, h5, hx, hh, hc]

theorem suffixName_markers (s x : Str) (hs : markerFree s = true) (hx : x ∈ extensions) :
    (includes (suffixName s x) dotEjs = false ∧
      includes (suffixName s x) dotHandlebars = false ∧
      includes (suffixName s x) dotScss = false ∧ includes (suffixName s x) dotSass = false ∧
      includes (suffixName s x) dotJsx = false) ∧
    (includes (s ++ x) dotEjs = true ∨ includes (s ++ x) dotHandlebars = true →
      includes (suffixName s x) dotHtml = true) ∧
    (includes (s ++ x) dotSass = true ∨ includes (s ++ x) dotScss = true →
      includes (suffixName s x) dotCss = true) ∧
    (includes (s ++ x) dotJsx = true → includes (suffixName s x) dotJs = true) := by
  simp only [markerFree, Bool.and_eq_true, Bool.not_eq_true'] at hs
  obtain ⟨⟨⟨⟨h1, h2⟩, h3⟩, h4⟩, h5⟩ := hs
  have h6 := markerFree_jsx s h1
  simp only [dotJs, dotJsx, dotEjs, dotHandlebars, dotSass, dotScss] at h1 h2 h3 h4 h5 h6
  simp only [extensions, List.mem_cons, List.mem_singleton, List.not_mem_nil, or_false] at hx
  rcases hx with rfl | rfl | rfl | rfl | rfl | rfl | rfl
  all_goals
    by_cases hh : includes s ['.', 'h', 't', 'm', 'l'] = true <;>
    by_cases hc : includes s ['.', 'c', 's', 's'] = true <;>
    simp (disch := first | decide | assumption) [suffixName, dotJs, dotJsx, dotEjs,
      dotHandlebars, dotSass, dotScss, dotHtml, dotCss, includes_append_dotHeaded, includes,
      List.isPrefixOf, h1, h2, h3, h4, h5, h6, hh, hc]

theorem public_path_markers_single_dot (E : Env V) (path : Str)
    (root : Option Str) (m : Option Bool) (pg : Page V)
    (h : compile E path root m = .ok pg)
    (hdots : (workingName E path root).count '.' ≤ 1) :
    (includes pg.file dotEjs = false ∧ includes pg.file dotHandlebars = false ∧
      includes pg.file dotScss = false ∧ includes pg.file dotSass = false ∧
      includes pg.file dotJsx = false) ∧
    (includes (workingName E path root) dotEjs = true ∨
      includes (workingName E path root) dotHandlebars = true →
        includes pg.file dotHtml = true) ∧
    (includes (workingName E path root) dotSass = true ∨
      includes (workingName E path root) dotScss = true →
        includes pg.file dotCss = true) ∧
    (includes (workingName E path root) dotJsx = true → includes pg.file dotJs = true) := by
  obtain ⟨hfile, -⟩ := compile_ok E path root m pg h
  rcases count_dot_le_one _ hdots with hno | ⟨stem, e, hname, hs, he⟩
  · have hinc : ∀ mk : Str, includes (workingName E path root) ('.' :: mk) = false :=
      fun mk => includes_of_not_mem _ mk _ hno
    have hpub : pg.file = workingName E path root := by
      rw [hfile, publicName]
      simp [dotJs, dotEjs, dotHandlebars, dotSass, dotScss, hinc]
    rw [hpub]
    simp [dotJs, dotJsx, dotEjs, dotHandlebars, dotSass, dotScss, dotHtml, dotCss, hinc]
  · rw [hname] at hfile ⊢
    rw [publicName_single_dot stem e hs he] at hfile
    rw [hfile]
    simp only [dotJs, dotJsx, dotEjs, dotHandlebars, dotSass, dotScss, dotHtml, dotCss,
      includes_singleDotName _ _ _ hs he, includes_single_dot _ _ _ hs he]
    by_cases h0 : ['j', 's'].isPrefixOf e = true
    · have a1 := not_both_isPrefixOf _ ['e', 'j', 's'] e (by decide) (by decide) h0
      have a2 := not_both_isPrefixOf _ ['h', 'a', 'n', 'd', 'l', 'e', 'b', 'a', 'r', 's'] e
        (by decide) (by decide) h0
      have a3 := not_both_isPrefixOf _ ['s', 'a', 's', 's'] e (by decide) (by decide) h0
      have a4 := not_both_isPrefixOf _ ['s', 'c', 's', 's'] e (by decide) (by decide) h0
      simp [h0, a1, a2, a3, a4, List.isPrefixOf]
    · have hx : ['j', 's', 'x'].isPrefixOf e = false := by
        rw [Bool.eq_false_iff]
        intro hx
        exact h0 (isPrefixOf_trans ['j', 's'] _ e (by decide) hx)
      by_cases h1 : ['e', 'j', 's'].isPrefixOf e = true
      · have a2 := not_both_isPrefixOf _ ['h', 'a', 'n', 'd', 'l', 'e', 'b', 'a', 'r', 's'] e
          (by decide) (by decide) h1
        have a3 := not_both_isPrefixOf _ ['s', 'a', 's', 's'] e (by decide) (by decide) h1
        have a4 := not_both_isPrefixOf _ ['s', 'c', 's', 's'] e (by decide) (by decide) h1
        simp [h0, hx, h1, a2, a3, a4, List.isPrefixOf]
      · by_cases h2 : ['h', 'a', 'n', 'd', 'l', 'e', 'b', 'a', 'r', 's'].isPrefixOf e = true
        · have a3 := not_both_isPrefixOf _ ['s', 'a', 's', 's'] e (by decide) (by decide) h2
          have a4 := not_both_isPrefixOf _ ['s', 'c', 's', 's'] e (by decide) (by decide) h2
          simp [h0, hx, h1, h2, a3, a4, List.isPrefixOf]
        · by_cases h3 : ['s', 'a', 's', 's'].isPrefixOf e = true
          · have a4 := not_both_isPrefixOf _ ['s', 'c', 's', 's'] e (by decide) (by decide) h3
            simp [h0, hx, h1, h2, h3, a4, List.isPrefixOf]
          · by_cases h4 : ['s', 'c', 's', 's'].isPrefixOf e = true
            · simp [h0, hx, h1, h2, h3, h4, List.isPrefixOf]
            · simp [h0, hx, h1, h2, h3, h4]

/-- C3, amended: when the working name contains at most one `.`, or is a stem free of
`.js`, `.ejs`, `.handlebars`, `.sass`, `.scss` followed by nothing or by exactly one of
`.js`, `.jsx`, `.ejs`, `.handlebars`, `.sass`, `.scss`, the public path returned by
`compile` contains none of `.ejs`, `.handlebars`, `.scss`, `.sass`, `.jsx`, and it
contains `.html`, `.css` or `.js` when the working name contained a markup, style or
`.jsx` marker respectively. -/
theorem compile_public_path_has_no_source_marker (E : Env V) (path : Str)
    (root : Option Str) (m : Option Bool) (pg : Page V)
    (h : compile E path root m = .ok pg)
    (hform : (workingName E path root).count '.' ≤ 1 ∨
      ∃ s x, workingName E path root = s ++ x ∧
        (x = [] ∨ x = dotJs ∨ x = dotJsx ∨ x = dotEjs ∨ x = dotHandlebars ∨
          x = dotSass ∨ x = dotScss) ∧
        includes s dotJs = false ∧ includes s dotEjs = false ∧
        includes s dotHandlebars = false ∧ includes s dotSass = false ∧
        includes s dotScss = false) :
    (includes pg.file dotEjs = false ∧ includes pg.file dotHandlebars = false ∧
      includes pg.file dotScss = false ∧ includes pg.file dotSass = false ∧
      includes pg.file dotJsx = false) ∧
    (includes (workingName E path root) dotEjs = true ∨
      includes (workingName E path root) dotHandlebars = true →
        includes pg.file dotHtml = true) ∧
    (includes (workingName E path root) dotSass = true ∨
      includes (workingName E path root) dotScss = true →
        includes pg.file dotCss = true) ∧
    (includes (workingName E path root) dotJsx = true → includes pg.file dotJs = true) := by
  rcases hform with hdots | ⟨s, x, hname, hx, h1, h2, h3, h4, h5⟩
  · exact public_path_markers_single_dot E path root m pg h hdots
  · have hs : markerFree s = true := by simp [markerFree, h1, h2, h3, h4, h5]
    have hx2 : x ∈ extensions := by
      simp only [extensions, List.mem_cons, List.mem_singleton, List.not_mem_nil, or_false]
      exact hx
    obtain ⟨hfile, -⟩ := compile_ok E path root m pg h
    rw [hname] at hfile ⊢
    rw [publicName_suffix s x hs hx2] at hfile
    rw [hfile]
    exact suffixName_markers s x hs hx2

/-- The amended C3 on `/a.ejs`, served as `/a.html`, and on `/jquery.min.js`, whose
stem holds a dot but no marker, both under the root `/site`. -/
theorem compile_public_path_has_no_source_marker_witness :
    (∃ pg : Page Unit,
      compile plainEnv "/site/a.ejs".toList (some "/site".toList) none = .ok pg ∧
      includes pg.file dotEjs = false ∧ includes pg.file dotHtml = true) ∧
    (∃ pg : Page Unit,
      compile plainEnv "/site/jquery.min.js".toList (some "/site".toList) none = .ok pg ∧
      includes pg.file dotJsx = false) :=
  have key := compile_public_path_has_no_source_marker plainEnv "/site/a.ejs".toList
    (some "/site".toList) none _ rfl (Or.inl (by decide))
  have key2 := compile_public_path_has_no_source_marker plainEnv
    "/site/jquery.min.js".toList (some "/site".toList) none _ rfl
    (Or.inr ⟨"/jquery.min".toList, dotJs, by decide, by decide, by decide, by decide,
      by decide, by decide, by decide⟩)
  ⟨⟨_, rfl, key.1.1, key.2.1 (Or.inl (by decide))⟩, ⟨_, rfl, key2.1.2.2.2.2⟩⟩

/-! ## Script minification -/

/-- C7, as stated, fails for script files whose name carries a further marker, with
`minify = true` and a minifier that rejects every text: `/a.ejs.js` comes back as a
template, not as the transpiled text; `/styles.css.js` is sent through the style
optimizer first, so its content is the optimizer's output when the optimizer succeeds,
and `compile` fails when the optimizer fails. -/
theorem compile_script_minify_counterexample :
    (compile rejectingEnv "/site/a.ejs.js".toList (some "/site".toList)
        (some true)).toOption.map (fun pg => (pg.file, pg.toRender, pg.content.isRender))
      = some ("/a.html.js".toList, true, true) ∧
    (compile markingRejectingEnv "/site/styles.css.js".toList (some "/site".toList)
        (some true)).toOption.map (fun pg => (pg.file, pg.content.asText))
      = some ("/styles.css.js".toList, some "/*optimized*//site/styles.css.js".toList) ∧
    (compile rejectingEnv "/site/styles.css.js".toList (some "/site".toList)
        (some true)).toOption.isSome = false := by
  decide

/-- C7, amended: if the script minifier reports an error on `c`, `minify` returns `c`
unchanged; and a file whose working name contains `.js`, and whose name after the
script stage contains none of `.ejs`, `.handlebars`, `.sass`, `.scss`, `css`, compiled
with minification on, yields an artifact whose content is the transpiled text whenever
the minifier rejects that text. -/
theorem minify_script_failure_keeps_content (E : Env V) :
    (∀ (c : Content V) (err : Err), E.terser (c.toStr E) = .error err →
      minify E c "application/javascript" = .ok c) ∧
    (∀ (path : Str) (root : Option Str) (m : Option Bool) (bytes : List Nat)
      (code : Str) (err : Err),
      resolveMinify E m = some true →
      includes (workingName E path root) dotJs = true →
      includes (scriptName (workingName E path root)) dotEjs = false →
      includes (scriptName (workingName E path root)) dotHandlebars = false →
      includes (scriptName (workingName E path root)) dotSass = false →
      includes (scriptName (workingName E path root)) dotScss = false →
      includes (scriptName (workingName E path root)) cssWord = false →
      E.readFileSync (E.resolve path) = .ok bytes →
      E.babel (E.decode bytes) (workingName E path root)
        (resolveRoot E (E.resolve path) root) (some true) = .ok code →
      E.terser code = .error err →
      ∃ pg, compile E path root m = .ok pg ∧ pg.content = .text code ∧
        pg.type = "application/javascript" ∧
        pg.file = scriptName (workingName E path root)) := by
  constructor
  · intro c err h
    simp [minify, h]
  · intro path root m bytes code err hm hjs h1 h2 h3 h4 h5 hread hbabel hterser
    unfold workingName at hjs h1 h2 h3 h4 h5 hbabel
    simp [compile, compileStatic, minify, hm, bind, Except.bind, pure, Except.pure, hread,
      hjs, hbabel, h1, h2, h3, h4, h5, truthy, Content.toStr, hterser, workingName]

/-- The amended C7 on `/site/app.js`, compiled with `minify = true` by a minifier that
rejects every text: the artifact holds the transpiled text. -/
theorem minify_script_failure_keeps_content_witness :
    ∃ pg : Page Unit,
      compile rejectingEnv "/site/app.js".toList (some "/site".toList) (some true) = .ok pg ∧
      pg.content = .text "/site/app.js".toList ∧ pg.type = "application/javascript" ∧
      pg.file = "/app.js".toList :=
  (minify_script_failure_keeps_content rejectingEnv).2 "/site/app.js".toList
    (some "/site".toList) (some true) ("/site/app.js".toList.map Char.toNat)
    "/site/app.js".toList "SyntaxError: unexpected token" rfl (by decide) (by decide)
    (by decide) (by decide) (by decide) (by decide) rfl rfl rfl

/-! ## The style optimizer -/

/-- C9 at the failing input: `/css/logo.svg` carries no `.css` extension and is not a
template, yet with `minify = true` its content is what the style optimizer returned. -/
theorem compile_optimizes_file_without_css_extension :
    includes "/css/logo.svg".toList dotCss = false ∧
    (compile markingEnv "/site/css/logo.svg".toList (some "/site".toList)
        (some true)).toOption.map (fun pg => (pg.file, pg.toRender, pg.content.asText))
      = some ("/css/logo.svg".toList, false,
          some "/*optimized*//site/css/logo.svg".toList) ∧
    (compile markingEnv "/site/css/logo.svg".toList (some "/site".toList)
        (some false)).toOption.map (fun pg => pg.content.asText)
      = some none := by
  decide

/-! ## The request handler -/

theorem step_done (E : Env V) (opts : LoadOptions V) (th : HandlerOptions V)
    (gv : GetVars V) (g : Shared V) : step E opts th gv g .done = (g, .done, []) := rfl

theorem handle_of_done (E : Env V) (opts : LoadOptions V) (th : HandlerOptions V)
    (gv : GetVars V) (g : Shared V) (req : Request) (g1 : Shared V)
    (out : List (Action V))
    (h : step E opts th gv g (.start req) = (g1, .done, out)) :
    handle E opts th gv g req = { shared := g1, task := .done, trace := out } := by
  simp only [handle, Run.advance, h, step_done, List.append_nil, List.nil_append]

theorem Index.get_of_slash (ix : Index V) (k : Str) :
    ix.get ('/' :: k) = (ix.own.lookup ('/' :: k)).map Slot.page := by
  have hne : ∀ s : Str, s.head? ≠ some '/' → ('/' :: k = s) = False := by
    intro s hs
    apply eq_false
    intro h
    apply hs
    rw [← h]
    rfl
  cases hl : ix.own.lookup ('/' :: k) with
  | some p => simp [Index.get, hl]
  | none =>
    have h1 : '/' :: k ≠ protoKey := by
      intro h
      have h5 : some '/' = protoKey.head? := congrArg List.head? h
      exact absurd h5 (by decide)
    have h2 : '/' :: k ∉ objectPrototypeNames := by
      intro h
      have : (objectPrototypeNames.all (fun s => s.head? != some '/')) = true := by decide
      rw [List.all_eq_true] at this
      have h3 := this _ h
      simp at h3
    have h3 : ∀ p : Page V, pageTruthyField p ('/' :: k) = false := by
      intro p
      simp [pageTruthyField, hne _ (by decide : "toRender".toList.head? ≠ some '/'),
        hne _ (by decide : "orginally".toList.head? ≠ some '/'),
        hne _ (by decide : "file".toList.head? ≠ some '/'),
        hne _ (by decide : "type".toList.head? ≠ some '/'),
        hne _ (by decide : "content".toList.head? ≠ some '/'),
        hne _ (by decide : "isAsync".toList.head? ≠ some '/'),
        hne _ (by decide : "path".toList.head? ≠ some '/')]
    simp only [Index.get, hl, h1, if_false, h2, Option.map_none']
    cases ix.proto with
    | none => simp
    | some p => simp [h3 p]

/-- C4, as stated, fails: on the site made of `/a.txt` alone the key `constructor` has
no entry in the index, yet a `GET` for it finds the member every object inherits and is
answered with status 200, even with error display on. -/
theorem handler_inherited_key_counterexample :
    oneStatic.pages.keys = ["/a.txt".toList] ∧
    (handle plainEnv { noOptions with displayErrors := some true } noHandlerOptions none
        oneStatic (getRequest "constructor".toList)).trace.map Action.view
      = [.status 200, .set none (.finite 3600), .sendText none] := by
  decide

/-- C4, amended: a request whose method is not `GET`, `HEAD` or `OPTIONS`, or whose key
reads as `undefined` in `pages`, as does every key that begins with `/` and has no
entry, finishes in its first run without reaching a suspension point or the renderer,
leaves the shared state as it was, and makes exactly the calls
`res.status(404).send("404 - No such page")` when error display is on, or `next()` with
no argument when it is off. -/
theorem handler_miss_never_serves (E : Env V) (opts : LoadOptions V)
    (th : HandlerOptions V) (gv : GetVars V) (g : Shared V) (req : Request)
    (hmiss : methodAllowed req.method = false ∨
      ∃ ps, req.params = some ps ∧
        (g.pages.get (lookupKey ps req.path) = none ∨
          ∃ k, lookupKey ps req.path = '/' :: k ∧ g.pages.own.lookup ('/' :: k) = none)) :
    (step E opts th gv g (.start req)).2.1 = .done ∧
    (handle E opts th gv g req).task = .done ∧
    (handle E opts th gv g req).shared = g ∧
    (showErrors opts th = true →
      (handle E opts th gv g req).trace =
        [.status 404, .send (some (.text "404 - No such page".toList))]) ∧
    (showErrors opts th = false → (handle E opts th gv g req).trace = [.next none]) := by
  have hstep : step E opts th gv g (.start req) = (g, .done, notFound opts th) := by
    rcases hmiss with h | ⟨ps, hp, hkey⟩
    · simp [step, h]
    · have hg : g.pages.get (lookupKey ps req.path) = none := by
        rcases hkey with hg | ⟨k, hk, hown⟩
        · exact hg
        · rw [hk, Index.get_of_slash, hown]; rfl
      by_cases hm : methodAllowed req.method = true
      · simp [step, hm, hp, hg]
      · simp [step, hm]
  have hh := handle_of_done E opts th gv g req g _ hstep
  rw [hh, hstep]
  refine ⟨rfl, rfl, rfl, ?_, ?_⟩
  · intro hs; simp [notFound, hs]
  · intro hs; simp [notFound, hs]

/-- The amended C4 on a `POST` to the known path `/a.txt` and on a `GET` for the unknown
path `/missing`, error display off: the only call is `next()`. -/
theorem handler_miss_never_serves_witness :
    (handle plainEnv noOptions noHandlerOptions none oneStatic
        { method := "POST", params := some { file := none, rest := none },
          path := "/a.txt".toList }).trace.map Action.view = [.next none] ∧
    (handle plainEnv noOptions noHandlerOptions none oneStatic
        (getRequest "/missing".toList)).trace.map Action.view = [.next none] := by
  constructor
  · rw [(handler_miss_never_serves plainEnv noOptions noHandlerOptions none oneStatic
      { method := "POST", params := some { file := none, rest := none },
        path := "/a.txt".toList } (Or.inl rfl)).2.2.2.2 rfl]
    rfl
  · rw [(handler_miss_never_serves plainEnv noOptions noHandlerOptions none oneStatic
      (getRequest "/missing".toList)
      (Or.inr ⟨{ file := none, rest := none }, rfl,
        Or.inr ⟨"missing".toList, rfl, rfl⟩⟩)).2.2.2.2 rfl]
    rfl

/-- C6, as stated, fails: with `displayErrors: false` passed to `handleRequest` and
`displayErrors: true` passed to `load`, a `POST` is answered with the 404 response, not
passed through. -/
theorem handler_display_errors_counterexample :
    (handle plainEnv { noOptions with displayErrors := some true }
        { noHandlerOptions with displayErrors := some false } none oneStatic
        { method := "POST", params := some { file := none, rest := none },
          path := "/a.txt".toList }).trace.map Action.view
      = [.status 404, .sendText (some "404 - No such page".toList)] := by
  decide

/-- C6, amended: on a rejected method or a miss the handler answers 404 when the
per-call `displayErrors` or the index-level `displayErrors` is true, and calls `next()`
when neither is; a per-call `false` does not override an index-level `true`. -/
theorem handler_display_errors_either (E : Env V) (opts : LoadOptions V)
    (th : HandlerOptions V) (gv : GetVars V) (g : Shared V) (req : Request)
    (hmiss : methodAllowed req.method = false ∨
      ∃ ps, req.params = some ps ∧ g.pages.get (lookupKey ps req.path) = none) :
    (th.displayErrors = some true ∨ opts.displayErrors = some true →
      (handle E opts th gv g req).trace =
        [.status 404, .send (some (.text "404 - No such page".toList))]) ∧
    (th.displayErrors ≠ some true → opts.displayErrors ≠ some true →
      (handle E opts th gv g req).trace = [.next none]) := by
  have hstep : step E opts th gv g (.start req) = (g, .done, notFound opts th) := by
    rcases hmiss with h | ⟨ps, hp, hg⟩
    · simp [step, h]
    · by_cases hm : methodAllowed req.method = true
      · simp [step, hm, hp, hg]
      · simp [step, hm]
  rw [handle_of_done E opts th gv g req g _ hstep]
  constructor
  · rintro (h | h)
    · simp [notFound, showErrors, truthy, h]
    · simp [notFound, showErrors, truthy, h]
  · intro h1 h2
    have e1 : truthy th.displayErrors = false := by
      rcases hd : th.displayErrors with _ | b
      · rfl
      · cases b
        · rfl
        · exact absurd hd h1
    have e2 : truthy opts.displayErrors = false := by
      rcases hd : opts.displayErrors with _ | b
      · rfl
      · cases b
        · rfl
        · exact absurd hd h2
    simp [notFound, showErrors, e1, e2]

/-- The amended C6 on a `POST` with `displayErrors: true` passed to `load` only. -/
theorem handler_display_errors_either_witness :
    (handle plainEnv { noOptions with displayErrors := some true } noHandlerOptions none
        oneStatic
        { method := "POST", params := some { file := none, rest := none },
          path := "/a.txt".toList }).trace.map Action.view
      = [.status 404, .sendText (some "404 - No such page".toList)] := by
  rw [(handler_display_errors_either plainEnv { noOptions with displayErrors := some true }
    noHandlerOptions none oneStatic
    { method := "POST", params := some { file := none, rest := none },
      path := "/a.txt".toList } (Or.inl rfl)).1 (Or.inr rfl)]
  rfl

/-- C5, as stated, fails: a per-call `cache` of `0` is not used, the index-level value
`60` is sent instead; and a per-call `cache` of `NaN` is not used either. -/
theorem handler_cache_zero_counterexample :
    (handle plainEnv { noOptions with cache := some (.finite 60) }
        { noHandlerOptions with cache := some (.finite 0) } none oneStatic
        (getRequest "/a.txt".toList)).trace.map Action.view
      = [.status 200, .set (some "text/plain") (.finite 60), .sendOther] ∧
    (handle plainEnv noOptions { noHandlerOptions with cache := some .nan } none oneStatic
        (getRequest "/a.txt".toList)).trace.map Action.view
      = [.status 200, .set (some "text/plain") (.finite 3600), .sendOther] := by
  decide

/-- C5, amended: on a hit the handler makes the calls `res.status(200)`,
`res.set` with the artifact's type and `max-age=N`, and `res.send` with the static
content, or with the rendered output when the artifact is a template whose bindings
and rendering succeed; `N` is the per-call `cache` when it is a number other than zero
and `NaN` (negative, fractional and infinite values included), else the index-level
`cache` when it is a number other than zero and `NaN`, else 3600. -/
theorem handler_hit_response (E : Env V) (opts : LoadOptions V) (th : HandlerOptions V)
    (gv : GetVars V) (g : Shared V) (req : Request) (ps : Params) (p : Page V)
    (hm : methodAllowed req.method = true) (hparams : req.params = some ps)
    (hhit : g.pages.get (lookupKey ps req.path) = some (.page p)) :
    ∃ N : JsNumber,
      ((∀ n, th.cache = some n → n ≠ .nan → n ≠ .finite 0 → N = n) ∧
       (th.cache = none ∨ th.cache = some .nan ∨ th.cache = some (.finite 0) →
          ∀ k, opts.cache = some k → k ≠ .nan → k ≠ .finite 0 → N = k) ∧
       (th.cache = none ∨ th.cache = some .nan ∨ th.cache = some (.finite 0) →
          opts.cache = none ∨ opts.cache = some .nan ∨ opts.cache = some (.finite 0) →
          N = .finite 3600)) ∧
      (p.toRender = false →
        (handle E opts th gv g req).trace =
          [.status 200, .set (some p.type) N, .send (some p.content)]) ∧
      (∀ (f : V → Except Err Str) (v : V) (out : Str),
        p.toRender = true → p.content = .render f →
        (match gv with
          | some k => k p req = .ok v
          | none => v = fileVars E opts th p) →
        f v = .ok out →
        (handle E opts th gv g req).trace =
          [.status 200, .set (some p.type) N, .send (some (.text out))]) := by
  have htruthy : ∀ n : JsNumber, n ≠ .nan → n ≠ .finite 0 → n.truthy = true := by
    intro n h1 h2
    cases n with
    | nan => exact absurd rfl h1
    | infinity b => rfl
    | finite q =>
      have hq : q ≠ 0 := fun e => h2 (by rw [e])
      simp [JsNumber.truthy, hq]
  have hfalsy : ∀ c : Option JsNumber,
      c = none ∨ c = some .nan ∨ c = some (.finite 0) → ∀ b, orNumber c b = b := by
    intro c hc b
    rcases hc with h | h | h <;> subst h <;> simp [orNumber, JsNumber.truthy]
  refine ⟨maxAge opts th, ⟨?_, ?_, ?_⟩, ?_, ?_⟩
  · intro n hn h1 h2
    simp [maxAge, orNumber, hn, htruthy n h1 h2]
  · intro h k hk h1 h2
    simp [maxAge, hfalsy _ h, hk, htruthy k h1 h2]
  · intro h1 h2
    rw [maxAge, hfalsy _ h1]
    rcases h2 with h | h | h <;> rw [h] <;> simp [JsNumber.truthy]
  · intro hstatic
    have hstep : step E opts th gv g (.start req) =
        ({ g with content := some p.content }, .done,
          respond opts th (some p.type) (some p.content)) := by
      simp [step, hm, hparams, hhit, hstatic]
    rw [handle_of_done E opts th gv g req _ _ hstep]
    rfl
  · intro f v out ht hc hv hf
    cases gv with
    | none =>
      simp only at hv
      subst hv
      simp [handle, Run.advance, step, hm, hparams, hhit, ht, hc, callContent, hf, respond]
    | some k =>
      simp only at hv
      simp [handle, Run.advance, step, hm, hparams, hhit, ht, hc, callContent, hf, respond, hv]

/-- The amended C5 on a `GET` for the static file `/a.txt` with a per-call `cache` of
`-5`, which is forwarded. -/
theorem handler_hit_response_witness :
    ∃ p : Page Unit,
      oneStatic.pages.get (lookupKey { file := none, rest := none } "/a.txt".toList)
        = some (.page p) ∧
      (handle plainEnv noOptions { noHandlerOptions with cache := some (.finite (-5)) } none
          oneStatic (getRequest "/a.txt".toList)).trace
        = [.status 200, .set (some p.type) (.finite (-5)), .send (some p.content)] := by
  obtain ⟨N, hN, hstatic, -⟩ := handler_hit_response plainEnv noOptions
    { noHandlerOptions with cache := some (.finite (-5)) } none oneStatic
    (getRequest "/a.txt".toList) { file := none, rest := none } _ rfl rfl rfl
  have h5 : N = .finite (-5) := hN.1 (.finite (-5)) rfl (by decide) (by decide)
  subst h5
  exact ⟨_, rfl, hstatic rfl⟩

/-! ## Shared state of the handler -/

/-- C10 at the failing input: the first run of a request writes the shared variable
`content`; and a request for `/a` that is suspended at `getVars` while a request for
`/b` starts sends the rendering of `/b` under its own response, where alone it sends
the rendering of `/a`. -/
theorem handler_content_is_shared :
    oneStatic.content.isSome = false ∧
    (step plainEnv noOptions noHandlerOptions none oneStatic
        (.start (getRequest "/a.txt".toList))).1.content.isSome = true ∧
    (handle plainEnv noOptions noHandlerOptions (some (fun _ _ => .ok ())) twoTemplates
        (getRequest "/a".toList)).trace.map Action.view
      = [.status 200, .set (some "text/html") (.finite 3600),
         .sendText (some "/site/a.ejs".toList)] ∧
    ((Duo.run plainEnv noOptions noHandlerOptions (some (fun _ _ => .ok ()))
        { shared := twoTemplates,
          first := (.start (getRequest "/a".toList), []),
          second := (.start (getRequest "/b".toList), []) }
        [false, true, false, false]).first.2.map Action.view)
      = [.status 200, .set (some "text/html") (.finite 3600),
         .sendText (some "/site/b.ejs".toList)] := by
  decide

/-! ## The skip filter -/

theorem skipped_eq_slashMatch (E : Env V) (skip : Option (List Str)) (f : Str)
    (hjoin : ∀ frags, skip = some frags → ∀ frag ∈ frags, E.join ['/'] frag = '/' :: frag) :
    skipped E skip f = slashMatch skip f := by
  cases skip with
  | none => rfl
  | some frags =>
    have h := hjoin frags rfl
    simp only [skipped, slashMatch]
    have e : "/".toList = ['/'] := rfl
    rw [e]
    clear hjoin
    induction frags with
    | nil => rfl
    | cons a t ih =>
      simp only [List.any_cons]
      rw [h a (List.mem_cons_self _ _), ih (fun frag hf => h frag (List.mem_cons_of_mem _ hf))]

theorem slashMatch_iff (skip : Option (List Str)) (f : Str) :
    slashMatch skip f = true ↔
      ∃ frags frag, skip = some frags ∧ frag ∈ frags ∧ ('/' :: frag) <:+: f := by
  cases skip with
  | none => simp [slashMatch]
  | some frags =>
    simp only [slashMatch, List.any_eq_true, includes_iff]
    constructor
    · rintro ⟨frag, h1, h2⟩
      exact ⟨frags, frag, rfl, h1, h2⟩
    · rintro ⟨fr, frag, h0, h1, h2⟩
      cases h0
      exact ⟨frag, h1, h2⟩

theorem loadLoop_eq_storeAll (E : Env V) (opts : LoadOptions V) (root : Str)
    (hjoin : ∀ frags, opts.skip = some frags →
      ∀ frag ∈ frags, E.join ['/'] frag = '/' :: frag)
    (fs : List Str) (ix ix1 : Index V) (h : loadLoop E opts root fs ix = .ok ix1) :
    storeAll E opts root
      (fs.filter (fun f => isFile E f && !slashMatch opts.skip f)) ix = .ok ix1 := by
  induction fs generalizing ix with
  | nil => simpa [loadLoop, storeAll] using h
  | cons f fs ih =>
    rw [loadLoop] at h
    simp only [bind, Except.bind] at h
    rw [skipped_eq_slashMatch E opts.skip f hjoin] at h
    cases hd : E.isDirectory f with
    | error e => rw [hd] at h; simp at h
    | ok b =>
      rw [hd] at h
      cases b with
      | true =>
        simp only [if_true] at h
        have hk : isFile E f = false := by simp [isFile, hd]
        simp only [List.filter, hk, Bool.false_and]
        exact ih ix h
      | false =>
        simp only [Bool.false_eq_true, if_false] at h
        have hk : isFile E f = true := by simp [isFile, hd]
        cases hs : slashMatch opts.skip f with
        | true =>
          rw [hs] at h
          simp only [if_true] at h
          simp only [List.filter, hk, hs, Bool.not_true, Bool.and_false]
          exact ih ix h
        | false =>
          rw [hs] at h
          simp only [Bool.false_eq_true, if_false] at h
          simp only [List.filter, hk, hs, Bool.not_false, Bool.and_true]
          rw [storeAll]
          simp only [bind, Except.bind, storePage, pure, Except.pure]
          cases hc : compile E f (some root) opts.minify with
          | error e => rw [hc] at h; simp at h
          | ok pg =>
            rw [hc] at h
            simp only at h ⊢
            exact ih _ h

theorem Index.get_set_self (ix : Index V) (k : Str) (p : Page V) :
    ∃ q, (ix.set k p).get k = some (.page q) := by
  by_cases hk : k = protoKey
  · subst hk
    cases hl : ix.own.lookup protoKey with
    | some q => exact ⟨q, by simp [Index.get, Index.set, hl]⟩
    | none => exact ⟨p, by simp [Index.get, Index.set, hl]⟩
  · exact ⟨p, by simp [Index.get, Index.set, hk, List.lookup]⟩

theorem Index.get_set_page (ix : Index V) (k : Str) (p : Page V) (k1 : Str) (q : Page V)
    (h : ix.get k1 = some (.page q)) : ∃ q1, (ix.set k p).get k1 = some (.page q1) := by
  by_cases hk : k = protoKey
  · subst hk
    cases hl : ix.own.lookup k1 with
    | some q2 => exact ⟨q2, by simp [Index.get, Index.set, hl]⟩
    | none =>
      by_cases hk1 : k1 = protoKey
      · subst hk1
        exact ⟨p, by simp [Index.get, Index.set, hl]⟩
      · exfalso
        simp only [Index.get, hl, hk1, if_false] at h
        split at h
        · simp at h
        · split at h <;> simp at h
  · by_cases hkk : k1 = k
    · subst hkk
      exact ⟨p, by simp [Index.get, Index.set, hk, List.lookup]⟩
    · have hb : (k1 == k) = false := by simpa using hkk
      have hl : ((k, p) :: ix.own).lookup k1 = ix.own.lookup k1 := by
        simp [List.lookup, hb]
      refine ⟨q, ?_⟩
      simpa [Index.get, Index.set, hk, hl] using h

theorem storeAll_stores (E : Env V) (opts : LoadOptions V) (root : Str)
    (fs : List Str) (ix ix1 : Index V) (h : storeAll E opts root fs ix = .ok ix1) :
    (∀ k q, ix.get k = some (.page q) → ∃ q1, ix1.get k = some (.page q1)) ∧
    (∀ f ∈ fs, ∃ pg q, compile E f (some root) opts.minify = .ok pg ∧
      ix1.get (storedFile opts.hideHTMLExtension pg.file) = some (.page q)) := by
  induction fs generalizing ix with
  | nil =>
    simp only [storeAll] at h
    cases h
    exact ⟨fun k q hq => ⟨q, hq⟩, fun f hf => absurd hf (List.not_mem_nil _)⟩
  | cons f fs ih =>
    rw [storeAll] at h
    simp only [bind, Except.bind, storePage, pure, Except.pure] at h
    cases hc : compile E f (some root) opts.minify with
    | error e => rw [hc] at h; simp at h
    | ok pg =>
      rw [hc] at h
      simp only at h
      obtain ⟨hmono, hall⟩ := ih _ h
      constructor
      · intro k q hq
        obtain ⟨q1, hq1⟩ := Index.get_set_page ix
          (storedFile opts.hideHTMLExtension pg.file)
          { pg with file := storedFile opts.hideHTMLExtension pg.file } k q hq
        exact hmono k q1 hq1
      · intro f1 hf1
        rcases List.mem_cons.1 hf1 with rfl | hf1
        · obtain ⟨q1, hq1⟩ := Index.get_set_self ix
            (storedFile opts.hideHTMLExtension pg.file)
            { pg with file := storedFile opts.hideHTMLExtension pg.file }
          obtain ⟨q2, hq2⟩ := hmono _ q1 hq1
          exact ⟨pg, q2, hc, hq2⟩
        · exact hall f1 hf1

theorem storeAll_origin (E : Env V) (opts : LoadOptions V) (root : Str)
    (fs : List Str) (ix ix1 : Index V) (h : storeAll E opts root fs ix = .ok ix1)
    (q : Page V) (hq : (∃ k, (k, q) ∈ ix1.own) ∨ ix1.proto = some q) :
    ((∃ k, (k, q) ∈ ix.own) ∨ ix.proto = some q) ∨
    ∃ f ∈ fs, ∃ pg, compile E f (some root) opts.minify = .ok pg ∧
      q = { pg with file := storedFile opts.hideHTMLExtension pg.file } := by
  induction fs generalizing ix with
  | nil =>
    simp only [storeAll] at h
    cases h
    exact Or.inl hq
  | cons f fs ih =>
    rw [storeAll] at h
    simp only [bind, Except.bind, storePage, pure, Except.pure] at h
    cases hc : compile E f (some root) opts.minify with
    | error e => rw [hc] at h; simp at h
    | ok pg =>
      rw [hc] at h
      simp only at h
      rcases ih _ h with hprev | ⟨f1, hf1, pg1, h1, h2⟩
      · by_cases hk : storedFile opts.hideHTMLExtension pg.file = protoKey
        · simp only [Index.set, hk, if_true] at hprev
          rcases hprev with hown | hproto
          · exact Or.inl (Or.inl hown)
          · right
            refine ⟨f, List.mem_cons_self _ _, pg, hc, ?_⟩
            simp only [Option.some.injEq] at hproto
            rw [← hproto, hk]
        · simp only [Index.set, hk, if_false] at hprev
          rcases hprev with ⟨k, hown⟩ | hproto
          · rcases List.mem_cons.1 hown with heq | hold
            · right
              refine ⟨f, List.mem_cons_self _ _, pg, hc, ?_⟩
              exact (Prod.mk.inj heq).2
            · exact Or.inl (Or.inl ⟨k, hold⟩)
          · exact Or.inl (Or.inr hproto)
      · exact Or.inr ⟨f1, List.mem_cons_of_mem _ hf1, pg1, h1, h2⟩

/-- C8, as stated, fails: with the skip fragment `node` the file
`/site/node_modules/b.txt` is dropped (the index stays empty) although no segment of its
path is `node`; the fragment only begins a segment. -/
theorem load_skip_segment_counterexample :
    "node".toList ∉ segments "/site/node_modules/b.txt".toList ∧
    (load plainEnv (.files ["/site/node_modules/b.txt".toList])
        { noOptions with root := some "/site".toList,
                         skip := some ["node".toList] }).toOption.map Index.keys
      = some [] ∧
    (load plainEnv (.files ["/site/node_modules/b.txt".toList])
        { noOptions with root := some "/site".toList }).toOption.map Index.keys
      = some ["/node_modules/b.txt".toList] := by
  decide

/-- C8, amended: when `path.join("/", fragment)` is `/` followed by the fragment, a file
(not a directory) is dropped exactly when its path contains `/` + fragment as a
substring for some skip fragment, so the fragment is anchored at the start of a segment
but need not fill it.  The index `load` returns is the result of compiling and storing,
in order, the files that are not dropped: each of them is compiled and its key reads as a
page, and every page the index holds comes from one of them. -/
theorem load_skip_filter (E : Env V) (opts : LoadOptions V) (src : Source) (ix : Index V)
    (hjoin : ∀ frags, opts.skip = some frags →
      ∀ frag ∈ frags, E.join ['/'] frag = '/' :: frag)
    (hload : load E src opts = .ok ix) :
    ∃ root, loadRoot E src opts.root = .ok root ∧
      storeAll E opts root
        ((sourceFiles E src).filter (fun f => isFile E f && !slashMatch opts.skip f))
        Index.empty = .ok ix ∧
      (∀ f ∈ sourceFiles E src, isFile E f = true →
        (skipped E opts.skip f = true ↔
          ∃ frags frag, opts.skip = some frags ∧ frag ∈ frags ∧ ('/' :: frag) <:+: f) ∧
        (skipped E opts.skip f = false →
          ∃ pg q, compile E f (some root) opts.minify = .ok pg ∧
            ix.get (storedFile opts.hideHTMLExtension pg.file) = some (.page q))) ∧
      (∀ q, (∃ k, (k, q) ∈ ix.own) ∨ ix.proto = some q →
        ∃ f ∈ sourceFiles E src, isFile E f = true ∧ skipped E opts.skip f = false ∧
          ∃ pg, compile E f (some root) opts.minify = .ok pg ∧
            q = { pg with file := storedFile opts.hideHTMLExtension pg.file }) := by
  unfold load at hload
  simp only [bind, Except.bind] at hload
  cases hr : loadRoot E src opts.root with
  | error e => rw [hr] at hload; simp at hload
  | ok root =>
    rw [hr] at hload
    simp only at hload
    have hstore := loadLoop_eq_storeAll E opts root hjoin _ _ _ hload
    obtain ⟨-, hall⟩ := storeAll_stores E opts root _ _ _ hstore
    refine ⟨root, rfl, hstore, ?_, ?_⟩
    · intro f hf hfile
      constructor
      · rw [skipped_eq_slashMatch E opts.skip f hjoin]
        exact slashMatch_iff opts.skip f
      · intro hs
        rw [skipped_eq_slashMatch E opts.skip f hjoin] at hs
        exact hall f (List.mem_filter.2 ⟨hf, by simp [hfile, hs]⟩)
    · intro q hq
      rcases storeAll_origin E opts root _ _ _ hstore q hq with h0 | ⟨f, hf, pg, h1, h2⟩
      · rcases h0 with ⟨k, hk⟩ | hp
        · simp [Index.empty] at hk
        · simp [Index.empty] at hp
      · obtain ⟨hf1, hf2⟩ := List.mem_filter.1 hf
        simp only [Bool.and_eq_true, Bool.not_eq_true'] at hf2
        refine ⟨f, hf1, hf2.1, ?_, pg, h1, h2⟩
        rw [skipped_eq_slashMatch E opts.skip f hjoin]
        exact hf2.2

/-- The amended C8 on two files with the skip fragment `node_modules`: the file under
`/node_modules` is dropped and `/a.txt` is compiled and stored. -/
theorem load_skip_filter_witness :
    ∃ ix : Index Unit,
      load plainEnv (.files ["/site/node_modules/b.txt".toList, "/site/a.txt".toList])
        { noOptions with root := some "/site".toList,
                         skip := some ["node_modules".toList] } = .ok ix ∧
      ix.keys = ["/a.txt".toList] ∧
      ∃ pg q, compile plainEnv "/site/a.txt".toList (some "/site".toList) none = .ok pg ∧
        ix.get (storedFile none pg.file) = some (.page q) := by
  obtain ⟨root, hroot, -, hkept, -⟩ := load_skip_filter plainEnv
    { noOptions with root := some "/site".toList, skip := some ["node_modules".toList] }
    (.files ["/site/node_modules/b.txt".toList, "/site/a.txt".toList]) _
    (fun _ _ _ _ => rfl) rfl
  have hr : (Except.ok "/site".toList : Except Err Str) = Except.ok root := hroot
  injection hr with hr
  subst hr
  exact ⟨_, rfl, by decide,
    (hkept "/site/a.txt".toList (by decide) (by decide)).2 (by decide)⟩

end Render
